import Mathlib

/-
Verification development for the formula computation core of the argus
blockchain state indexer.

The definitions below are a shallow embedding of the TypeScript source:
the Environment getters from the computation environment module
(src/unnamed/part_002) and the compute endpoint route
(src/src/server/routes/indexer/computer.ts).  Database queries are
modelled as pure functions over explicit lists of rows; the mutable
per-evaluation state (memo cache, dependency recorder, fetch hook calls,
performed reads) is threaded explicitly through each getter.
-/

namespace Argus

/-- A chain block: height and wall-clock time, as in the Block data model. -/
structure Block where
  height : Int
  timeUnixMs : Int
deriving DecidableEq, Repr

/-- A row of the WasmStateEvent table. The value column is nullable; the
delete flag marks deletion tombstones. -/
structure WasmStateEvent where
  contractAddress : String
  key : String
  blockHeight : Int
  blockTimeUnixMs : Int
  value : Option String
  delete : Bool
deriving DecidableEq, Repr

/-- A JSON value, represented by the raw string it was parsed from.  The
constructor models the JS JSON.parse call: the getters hand back parsed
values verbatim, so an injective wrapper is a faithful embedding. -/
inductive Json where
  | parse (raw : String)
deriving DecidableEq, Repr

/-- A row of the Contract table (address to code id). -/
structure Contract where
  address : String
  codeId : Int
deriving DecidableEq, Repr

/-- A row of the WasmTxEvent table. -/
structure WasmTxEvent where
  contractAddress : String
  blockHeight : Int
  blockTimeUnixMs : Int
  txData : String
deriving DecidableEq, Repr

/-- A row of the BankBalance table: one row per address holding the
latest set of all denom balances. -/
structure BankBalance where
  address : String
  blockHeight : Int
  balances : List (String × String)
deriving DecidableEq, Repr

/-- A row of the BankStateEvent table: per-denom balance history. -/
structure BankStateEvent where
  address : String
  denom : String
  blockHeight : Int
  balance : String
deriving DecidableEq, Repr

/-- A row of the WasmStateEventTransformation table, joined with its
Contract for code id filtering. -/
structure WasmStateEventTransformation where
  contractAddress : String
  name : String
  blockHeight : Int
  value : Option String
  contractCodeId : Int
deriving DecidableEq, Repr

/-- Modelled from the spec: each event family has a distinct
dependentKeyNamespace string (the db model files are not under src). -/
def WasmStateEvent.dependentKeyNamespace : String := "wasmStateEvent"

def WasmStateEventTransformation.dependentKeyNamespace : String :=
  "wasmStateEventTransformation"

def WasmTxEvent.dependentKeyNamespace : String := "wasmTxEvent"

def BankBalance.dependentKeyNamespace : String := "bankBalance"

def BankStateEvent.dependentKeyNamespace : String := "bankStateEvent"

/-- Modelled from the spec: getDependentKey from the utils module (not
under src) builds the canonical string namespace:subject[:suffix]. -/
def getDependentKey (ns : String) (keys : List String) : String :=
  ns ++ String.join (keys.map (fun k => ":" ++ k))

/-- Byte-string prefix test, evaluated on the character list so that
concrete instances reduce; models the SQL LIKE prefix filters. -/
def strStartsWith (s p : String) : Bool :=
  p.toList.isPrefixOf s.toList

/-- Byte-string suffix test on the character list; models the endsWith
checks on composed keys. -/
def strEndsWith (s p : String) : Bool :=
  p.toList.isSuffixOf s.toList

/-- Drop the first n characters; models the slice that removes a map
prefix from a composed key. -/
def strDrop (s : String) (n : Nat) : String :=
  String.mk (s.toList.drop n)

/-- One entry of the per-evaluation dependency recorder: a dependent key
and whether it is a prefix match. -/
structure DepKey where
  key : String
  pfx : Bool
deriving DecidableEq, Repr

/-- Tag for each database read a getter performs, used to observe which
tables were queried and how many round trips happened. -/
inductive ReadTag where
  | wasmFindOne
  | wasmFindAll
  | txFindAll
  | bankBalanceFindOne
  | bankStateFindOne
  | contractFindOne
  | transformationFindAll
deriving DecidableEq, Repr

/-- Payload of one onFetch hook invocation: the rows handed to the hook. -/
inductive FetchedRows where
  | wasm (rows : List WasmStateEvent)
  | transformations (rows : List WasmStateEventTransformation)
  | bankBalanceRows (rows : List BankBalance)
  | bankStateRows (rows : List BankStateEvent)
deriving DecidableEq, Repr

/-- The per-evaluation memo cache.  Each family entry maps a dependent
key to: absent assoc entry = untried; entry none = tried and empty (JS
null); entry some rows = positive hit.  Also caches contract lookups. -/
structure Cache where
  wasmEvents : List (String × Option (List WasmStateEvent))
  transformationEvents :
    List (String × Option (List WasmStateEventTransformation))
  bankBalanceEvents : List (String × Option (List BankBalance))
  bankStateEvents : List (String × Option (List BankStateEvent))
  contracts : List (String × Option Contract)
deriving DecidableEq, Repr

def Cache.empty : Cache := ⟨[], [], [], [], []⟩

/-- The per-evaluation mutable state threaded through the getters. -/
structure EnvState where
  cache : Cache
  deps : List DepKey
  reads : List ReadTag
  hookCalls : List FetchedRows
deriving DecidableEq, Repr

def EnvState.init : EnvState := ⟨Cache.empty, [], [], []⟩

/-- The database tables the modelled getters read. -/
structure Db where
  wasmEvents : List WasmStateEvent := []
  txEvents : List WasmTxEvent := []
  bankBalances : List BankBalance := []
  bankStateEvents : List BankStateEvent := []
  contracts : List Contract := []
  transformations : List WasmStateEventTransformation := []
deriving DecidableEq, Repr

/-- Configuration: the code id key mapping of the wasm code service, and
the bank-history code id keys constant (imported by the environment from
the bank tracer handler, which is not under src; modelled from the spec
as the configured track-bank-history set). -/
structure Config where
  codeIds : List (String × List Int)
  bankHistoryCodeIdsKeys : List String
deriving DecidableEq, Repr

/-- Evaluation context: database, configuration and the target block. -/
structure EnvCtx where
  db : Db
  cfg : Config
  block : Block
deriving Repr

/-- Modelled from the spec: WasmCodeService.findWasmCodeIdsByKeys (the
service is not under src) resolves code id keys to the configured code
ids, concatenating the ids of each key. -/
def findWasmCodeIdsByKeys (cfg : Config) (keys : List String) : List Int :=
  keys.foldl (fun acc k => acc ++ ((cfg.codeIds.lookup k).getD [])) []

/-- The row with the greatest height among a list, preferring the earlier
element on ties.  Models findOne with descending blockHeight order. -/
def maxByHeight (height : α → Int) : List α → Option α
  | [] => none
  | x :: xs =>
    match maxByHeight height xs with
    | none => some x
    | some y => if height x < height y then some y else some x

/-- Most recent WasmStateEvent at or below the block height for an exact
contract address and key: the findOne query of the get getter. -/
def wasmFindLatest (events : List WasmStateEvent) (contractAddress key : String)
    (h : Int) : Option WasmStateEvent :=
  maxByHeight (·.blockHeight)
    (events.filter fun e =>
      e.contractAddress == contractAddress && e.key == key &&
        decide (e.blockHeight ≤ h))

/-- Insert a string into an ascending list (by the Ord compare). -/
def insertAscString (x : String) : List String → List String
  | [] => [x]
  | y :: ys =>
    if compare x y == Ordering.lt then x :: y :: ys else y :: insertAscString x ys

/-- Ascending sort of strings; models the ORDER BY key ASC clause. -/
def sortedStrings (l : List String) : List String :=
  l.foldr insertAscString []

/-- Remove adjacent duplicates (applied after sorting). -/
def dedupAdj : List String → List String
  | [] => []
  | [x] => [x]
  | x :: y :: r => if x == y then dedupAdj (y :: r) else x :: dedupAdj (y :: r)

/-- DISTINCT ON projection: for each distinct key of the rows satisfying
the predicate, the row with the greatest height (keys ascending).  Models
the findAll queries with a DISTINCT ON literal and descending height. -/
def distinctLatestBy (keyOf : α → String) (height : α → Int)
    (rows : List α) : List α :=
  (dedupAdj (sortedStrings (rows.map keyOf))).filterMap fun k =>
    maxByHeight height (rows.filter fun e => keyOf e == k)

/-- Insert by ascending height. -/
def insertAscBy (height : α → Int) (x : α) : List α → List α
  | [] => [x]
  | y :: ys =>
    if decide (height x ≤ height y) then x :: y :: ys
    else y :: insertAscBy height x ys

/-- Ascending sort by height. -/
def sortAscBy (height : α → Int) (l : List α) : List α :=
  l.foldr (insertAscBy height) []

/-- Insert by descending height. -/
def insertDescBy (height : α → Int) (x : α) : List α → List α
  | [] => [x]
  | y :: ys =>
    if decide (height y ≤ height x) then x :: y :: ys
    else y :: insertDescBy height x ys

/-- Descending sort by height. -/
def sortDescBy (height : α → Int) (l : List α) : List α :=
  l.foldr (insertDescBy height) []

namespace Env

/-- Shared tail of the get getter after the event has been resolved from
cache or database: call the hook when a row was fetched (even a deleted
one), return absent for tombstones, else the JSON-parsed value. -/
def finishGet (event : Option WasmStateEvent) (s : EnvState) :
    Option Json × EnvState :=
  match event with
  | none => (none, s)
  | some e =>
    let s := { s with hookCalls := s.hookCalls ++ [FetchedRows.wasm [e]] }
    if e.delete then (none, s)
    else (some (Json.parse (e.value.getD "null")), s)

/-- The get getter: point read on WasmStateEvent by contract address and
composed key.  Mirrors the source: record the exact dependent key, check
the memo, otherwise findOne the most recent row at or below the target
block and memoise it (null when absent). -/
def get (ctx : EnvCtx) (contractAddress key : String) (s : EnvState) :
    Option Json × EnvState :=
  let dependentKey :=
    getDependentKey WasmStateEvent.dependentKeyNamespace [contractAddress, key]
  let s := { s with deps := s.deps ++ [DepKey.mk dependentKey false] }
  match s.cache.wasmEvents.lookup dependentKey with
  | some entry => finishGet (entry.bind List.head?) s
  | none =>
    let event :=
      wasmFindLatest ctx.db.wasmEvents contractAddress key ctx.block.height
    let s := { s with reads := s.reads ++ [ReadTag.wasmFindOne] }
    let s :=
      { s with
        cache :=
          { s.cache with
            wasmEvents :=
              (dependentKey, event.map fun e => [e]) :: s.cache.wasmEvents } }
    finishGet event s

/-- Shared tail of getMap: return absent when no row matched the key
prefix, otherwise call the hook with all rows, drop tombstones and build
the mapping from the decoded trailing key to the JSON-parsed value.  The
decode of the trailing segment (dbKeyToKeys, a util not under src) is
passed in as a function. -/
def finishGetMap (keyPfx : String) (decodeKey : String → String)
    (events : List WasmStateEvent) (s : EnvState) :
    Option (List (String × Json)) × EnvState :=
  if events.isEmpty then (none, s)
  else
    let s := { s with hookCalls := s.hookCalls ++ [FetchedRows.wasm events] }
    let undeleted := events.filter fun e => !e.delete
    (some
        (undeleted.map fun e =>
          (decodeKey (strDrop e.key keyPfx.length),
            Json.parse (e.value.getD "null"))),
      s)

/-- The getMap getter.  The key prefix argument is the composed map
prefix (built by dbKeyForKeys with a trailing empty key plus a comma, a
util not under src), so it is taken already encoded.  Mirrors the
source: record a prefix dependent key, check the memo, otherwise run the
DISTINCT ON key query for rows whose key starts with the prefix at or
below the target block. -/
def getMap (ctx : EnvCtx) (contractAddress keyPfx : String)
    (decodeKey : String → String) (s : EnvState) :
    Option (List (String × Json)) × EnvState :=
  let dependentKey :=
    getDependentKey WasmStateEvent.dependentKeyNamespace
      [contractAddress, keyPfx]
  let s := { s with deps := s.deps ++ [DepKey.mk dependentKey true] }
  match s.cache.wasmEvents.lookup dependentKey with
  | some entry => finishGetMap keyPfx decodeKey (entry.getD []) s
  | none =>
    let events :=
      distinctLatestBy (·.key) (·.blockHeight)
        (ctx.db.wasmEvents.filter fun e =>
          e.contractAddress == contractAddress &&
            strStartsWith e.key keyPfx &&
            decide (e.blockHeight ≤ ctx.block.height))
    let s := { s with reads := s.reads ++ [ReadTag.wasmFindAll] }
    let s :=
      { s with
        cache :=
          { s.cache with
            wasmEvents :=
              (dependentKey, if events.isEmpty then none else some events) ::
                s.cache.wasmEvents } }
    finishGetMap keyPfx decodeKey events s

/-- One prefetch request: an already composed key (map prefixes carry
their trailing comma, as built by dbKeyForKeys in the source). -/
structure PrefetchKey where
  key : String
  map : Bool
deriving DecidableEq, Repr

/-- Does a row key match the combined prefetch filter: exactly one of the
non-map keys, or a map prefix followed by at least one character (the
source regexp has a trailing dot-plus)?  When no key was requested the
source where clause is empty and matches every row of the contract. -/
def prefetchKeyMatches (nonMapKeys mapKeyPfxs : List String)
    (k : String) : Bool :=
  if nonMapKeys.isEmpty && mapKeyPfxs.isEmpty then true
  else
    nonMapKeys.contains k ||
      mapKeyPfxs.any fun p => strStartsWith k p && decide (p.length < k.length)

/-- Cache write for one non-map prefetch key: null when no row was found
or the row is a tombstone, else the single row. -/
def prefetchWriteNonMap (contractAddress : String)
    (events : List WasmStateEvent) (s : EnvState) (k : String) : EnvState :=
  let event := events.find? fun e => e.key == k
  let dependentKey :=
    getDependentKey WasmStateEvent.dependentKeyNamespace [contractAddress, k]
  let entry : Option (List WasmStateEvent) :=
    match event with
    | none => none
    | some e => if e.delete then none else some [e]
  { s with
    cache :=
      { s.cache with wasmEvents := (dependentKey, entry) :: s.cache.wasmEvents } }

/-- Cache write for one row found under a map prefix: null for
tombstones, else the single row, keyed by the exact event key. -/
def prefetchWriteMapEvent (contractAddress : String) (s : EnvState)
    (e : WasmStateEvent) : EnvState :=
  let dependentKey :=
    getDependentKey WasmStateEvent.dependentKeyNamespace
      [contractAddress, e.key]
  { s with
    cache :=
      { s.cache with
        wasmEvents :=
          (dependentKey, if e.delete then none else some [e]) ::
            s.cache.wasmEvents } }

/-- Cache writes for one map prefix: the grouped rows under the prefix
key (null when empty), then each found row cached separately. -/
def prefetchWriteMapPfx (contractAddress : String)
    (events : List WasmStateEvent) (s : EnvState) (p : String) : EnvState :=
  let eventsForPfx := events.filter fun e => strStartsWith e.key p
  let dependentKey :=
    getDependentKey WasmStateEvent.dependentKeyNamespace [contractAddress, p]
  let s :=
    { s with
      cache :=
        { s.cache with
          wasmEvents :=
            (dependentKey,
                if eventsForPfx.isEmpty then none else some eventsForPfx) ::
              s.cache.wasmEvents } }
  eventsForPfx.foldl (prefetchWriteMapEvent contractAddress) s

/-- The prefetch batch loader: records all dependent keys, runs one
DISTINCT ON key query over the combined key filter, calls the hook with
the fetched rows, and populates the memo for every requested exact key
and map prefix. -/
def prefetch (ctx : EnvCtx) (contractAddress : String)
    (listOfKeys : List PrefetchKey) (s : EnvState) : EnvState :=
  let s :=
    { s with
      deps :=
        s.deps ++
          listOfKeys.map fun (k : PrefetchKey) =>
            DepKey.mk
              (getDependentKey WasmStateEvent.dependentKeyNamespace
                [contractAddress, k.key])
              (strEndsWith k.key ",") }
  let nonMapKeys := (listOfKeys.filter fun k => !k.map).map (·.key)
  let mapKeyPfxs := (listOfKeys.filter fun k => k.map).map (·.key)
  let events :=
    distinctLatestBy (·.key) (·.blockHeight)
      (ctx.db.wasmEvents.filter fun e =>
        e.contractAddress == contractAddress &&
          prefetchKeyMatches nonMapKeys mapKeyPfxs e.key &&
          decide (e.blockHeight ≤ ctx.block.height))
  let s := { s with reads := s.reads ++ [ReadTag.wasmFindAll] }
  let s := { s with hookCalls := s.hookCalls ++ [FetchedRows.wasm events] }
  let s := nonMapKeys.foldl (prefetchWriteNonMap contractAddress events) s
  mapKeyPfxs.foldl (prefetchWriteMapPfx contractAddress events) s

/-- The getTxEvents getter: records a prefix dependent key for any tx of
the contract, fetches all tx events at or below the target block in
descending height order, and returns absent when none matched.  The
optional where clause is taken as a row predicate.  Note the source
calls no onFetch hook here. -/
def getTxEvents (ctx : EnvCtx) (contractAddress : String)
    (whereClause : WasmTxEvent → Bool) (s : EnvState) :
    Option (List WasmTxEvent) × EnvState :=
  let s :=
    { s with
      deps :=
        s.deps ++
          [DepKey.mk
            (getDependentKey WasmTxEvent.dependentKeyNamespace
              [contractAddress])
            true] }
  let txEvents :=
    sortDescBy (·.blockHeight)
      (ctx.db.txEvents.filter fun e =>
        whereClause e && e.contractAddress == contractAddress &&
          decide (e.blockHeight ≤ ctx.block.height))
  let s := { s with reads := s.reads ++ [ReadTag.txFindAll] }
  if txEvents.isEmpty then (none, s) else (some txEvents, s)

/-- The getContract getter: resolves the optional code id keys filter to
code ids (an empty filter list means unfiltered), consults the contract
memo, otherwise fetches the contract row and memoises it, and returns
the contract only when it matches the filter. -/
def getContract (ctx : EnvCtx) (contractAddress : String)
    (codeIdsKeysFilter : Option (List String)) (s : EnvState) :
    Option Contract × EnvState :=
  let codeIdsResolved : Option (List Int) :=
    match codeIdsKeysFilter with
    | some keys =>
      if keys.isEmpty then none else some (findWasmCodeIdsByKeys ctx.cfg keys)
    | none => none
  match s.cache.contracts.lookup contractAddress with
  | some none => (none, s)
  | some (some c) =>
    match codeIdsResolved with
    | some ids => if ids.contains c.codeId then (some c, s) else (none, s)
    | none => (some c, s)
  | none =>
    let contract := ctx.db.contracts.find? fun c => c.address == contractAddress
    let s := { s with reads := s.reads ++ [ReadTag.contractFindOne] }
    let s :=
      { s with
        cache :=
          { s.cache with
            contracts := (contractAddress, contract) :: s.cache.contracts } }
    match contract with
    | none => (none, s)
    | some c =>
      match codeIdsResolved with
      | some ids => if ids.contains c.codeId then (some c, s) else (none, s)
      | none => (some c, s)

/-- The contractMatchesCodeIdKeys getter: whether getContract with the
given code id keys filter finds the contract. -/
def contractMatchesCodeIdKeys (ctx : EnvCtx) (contractAddress : String)
    (keys : List String) (s : EnvState) : Bool × EnvState :=
  let (c, s) := getContract ctx contractAddress (some keys) s
  (c.isSome, s)

/-- The BankStateEvent history fallback block of getBalance: run only
when no BankBalance snapshot row exists; checks bank-history
eligibility via the contract code id keys, then (for tracked contracts)
records the BankStateEvent dependent key and fetches the most recent
per-denom balance. -/
def getBalanceHistory (ctx : EnvCtx) (address denom : String) (s : EnvState) :
    Option String × EnvState :=
  let (historyExists, s) :=
    contractMatchesCodeIdKeys ctx address ctx.cfg.bankHistoryCodeIdsKeys s
  if !historyExists then (none, s)
  else
    let dependentKey :=
      getDependentKey BankStateEvent.dependentKeyNamespace [address, denom]
    let s := { s with deps := s.deps ++ [DepKey.mk dependentKey false] }
    match s.cache.bankStateEvents.lookup dependentKey with
    | some entry =>
      match entry.bind List.head? with
      | none => (none, s)
      | some e =>
        let s :=
          { s with
            hookCalls := s.hookCalls ++ [FetchedRows.bankStateRows [e]] }
        (some e.balance, s)
    | none =>
      let event :=
        maxByHeight (fun (e : BankStateEvent) => e.blockHeight)
          (ctx.db.bankStateEvents.filter fun (e : BankStateEvent) =>
            e.address == address && e.denom == denom &&
              decide (e.blockHeight ≤ ctx.block.height))
      let s := { s with reads := s.reads ++ [ReadTag.bankStateFindOne] }
      let s :=
        { s with
          cache :=
            { s.cache with
              bankStateEvents :=
                (dependentKey, event.map fun e => [e]) ::
                  s.cache.bankStateEvents } }
      match event with
      | none => (none, s)
      | some e =>
        let s :=
          { s with
            hookCalls := s.hookCalls ++ [FetchedRows.bankStateRows [e]] }
        (some e.balance, s)

/-- The getBalance getter.  Mirrors the source: prefer the BankBalance
snapshot at or below the target block (no dependent key is recorded for
that read); when no snapshot row exists, fall back to the per-denom
BankStateEvent history only when the address is a contract matching the
bank-history code id keys, recording the BankStateEvent dependent key
before that fetch. -/
def getBalance (ctx : EnvCtx) (address denom : String) (s : EnvState) :
    Option String × EnvState :=
  let bankBalanceDependentKey :=
    getDependentKey BankBalance.dependentKeyNamespace [address]
  match s.cache.bankBalanceEvents.lookup bankBalanceDependentKey with
  | some (some [b]) =>
    let s :=
      { s with hookCalls := s.hookCalls ++ [FetchedRows.bankBalanceRows [b]] }
    (b.balances.lookup denom, s)
  | cachedBalance =>
    let (bankBalance, s) :=
      match cachedBalance with
      | some entry => (entry.bind List.head?, s)
      | none =>
        ((ctx.db.bankBalances.filter fun (b : BankBalance) =>
              b.address == address && decide (b.blockHeight ≤ ctx.block.height)).head?,
          { s with reads := s.reads ++ [ReadTag.bankBalanceFindOne] })
    let s :=
      match cachedBalance with
      | none =>
        { s with
          cache :=
            { s.cache with
              bankBalanceEvents :=
                (bankBalanceDependentKey, bankBalance.map fun b => [b]) ::
                  s.cache.bankBalanceEvents } }
      | some _ => s
    match bankBalance with
    | some b =>
      let s :=
        { s with hookCalls := s.hookCalls ++ [FetchedRows.bankBalanceRows [b]] }
      (b.balances.lookup denom, s)
    | none => getBalanceHistory ctx address denom s

/-- One prefetchTransformations request: a plain name or a map name (the
source appends a colon to map names before querying). -/
structure PrefetchName where
  name : String
  map : Bool
deriving DecidableEq, Repr

/-- Does a transformation name match the combined filter: one of the
non-map names, or starting with one of the map name prefixes?  When no
name was requested the source where clause is empty and matches all. -/
def prefetchNameMatches (nonMapNames mapNamePfxs : List String)
    (n : String) : Bool :=
  if nonMapNames.isEmpty && mapNamePfxs.isEmpty then true
  else nonMapNames.contains n || mapNamePfxs.any fun p => strStartsWith n p

/-- Cache write for one non-map prefetched transformation name: null
when no transformation was found or its value is null. -/
def prefetchTransformationsWriteNonMap (contractAddress : String)
    (transformations : List WasmStateEventTransformation) (s : EnvState)
    (n : String) : EnvState :=
  let transformation := transformations.find? fun t => t.name == n
  let dependentKey :=
    getDependentKey WasmStateEventTransformation.dependentKeyNamespace
      [contractAddress, n]
  let entry : Option (List WasmStateEventTransformation) :=
    match transformation with
    | none => none
    | some t => if t.value.isNone then none else some [t]
  { s with
    cache :=
      { s.cache with
        transformationEvents :=
          (dependentKey, entry) :: s.cache.transformationEvents } }

/-- Cache write for one transformation found under a map name prefix:
null when its value is null, keyed by the exact name. -/
def prefetchTransformationsWriteMapEvent (contractAddress : String)
    (s : EnvState) (t : WasmStateEventTransformation) : EnvState :=
  let dependentKey :=
    getDependentKey WasmStateEventTransformation.dependentKeyNamespace
      [contractAddress, t.name]
  { s with
    cache :=
      { s.cache with
        transformationEvents :=
          (dependentKey, if t.value.isNone then none else some [t]) ::
            s.cache.transformationEvents } }

/-- Cache writes for one map name prefix: the grouped transformations
under the prefix key (null when empty), then each one cached separately. -/
def prefetchTransformationsWriteMapPfx (contractAddress : String)
    (transformations : List WasmStateEventTransformation) (s : EnvState)
    (p : String) : EnvState :=
  let transformationsForPfx := transformations.filter fun t => strStartsWith t.name p
  let dependentKey :=
    getDependentKey WasmStateEventTransformation.dependentKeyNamespace
      [contractAddress, p]
  let s :=
    { s with
      cache :=
        { s.cache with
          transformationEvents :=
            (dependentKey,
                if transformationsForPfx.isEmpty then none
                else some transformationsForPfx) ::
              s.cache.transformationEvents } }
  transformationsForPfx.foldl
    (prefetchTransformationsWriteMapEvent contractAddress) s

/-- The prefetchTransformations batch loader: records all dependent keys
(map names carry a trailing colon), runs one DISTINCT ON name query,
calls the hook with an empty list (as the source does), and populates
the transformation memo. -/
def prefetchTransformations (ctx : EnvCtx) (contractAddress : String)
    (listOfNames : List PrefetchName) (s : EnvState) : EnvState :=
  let names :=
    listOfNames.map fun n => if n.map then n.name ++ ":" else n.name
  let s :=
    { s with
      deps :=
        s.deps ++
          names.map fun n =>
            DepKey.mk
              (getDependentKey
                WasmStateEventTransformation.dependentKeyNamespace
                [contractAddress, n])
              (strEndsWith n ":") }
  let nonMapNames :=
    (listOfNames.filter fun n => !n.map).map (·.name)
  let mapNamePfxs :=
    (listOfNames.filter fun n => n.map).map fun n => n.name ++ ":"
  let transformations :=
    distinctLatestBy (·.name) (·.blockHeight)
      (ctx.db.transformations.filter fun t =>
        t.contractAddress == contractAddress &&
          prefetchNameMatches nonMapNames mapNamePfxs t.name &&
          decide (t.blockHeight ≤ ctx.block.height))
  let s := { s with reads := s.reads ++ [ReadTag.transformationFindAll] }
  let s :=
    { s with hookCalls := s.hookCalls ++ [FetchedRows.transformations []] }
  let s :=
    nonMapNames.foldl
      (prefetchTransformationsWriteNonMap contractAddress transformations) s
  mapNamePfxs.foldl
    (prefetchTransformationsWriteMapPfx contractAddress transformations) s

end Env

namespace Computer

/-- A stored Computation row for one (targetAddress, formula, args)
triple: the block it was computed at and the validity bound. -/
structure StoredComputation where
  blockHeight : Int
  blockTimeUnixMs : Int
  latestBlockHeightValid : Int
  output : Option String
deriving DecidableEq, Repr

/-- The stored block of a computation. -/
def StoredComputation.block (c : StoredComputation) : Block :=
  ⟨c.blockHeight, c.blockTimeUnixMs⟩

/-- One output of the computeRange evaluator. -/
structure ComputationOutput where
  blockHeight : Int
  blockTimeUnixMs : Int
  latestBlockHeightValid : Int
  value : Option String
deriving DecidableEq, Repr

/-- Modelled from the spec: Computation.createFromComputationOutputs (the
Computation model is not under src) persists each computeRange output as
a stored computation row. -/
def createFromComputationOutputs (outputs : List ComputationOutput) :
    List StoredComputation :=
  outputs.map fun o =>
    ⟨o.blockHeight, o.blockTimeUnixMs, o.latestBlockHeightValid, o.value⟩

/-- The continuity check of the range reuse protocol, as written in the
source: every computation except the last must be valid up to exactly
the block just before the next computation starts. -/
def isRangeCoveredBeforeEnd : List StoredComputation → Bool
  | [] => true
  | [_] => true
  | a :: b :: rest =>
    (a.latestBlockHeightValid == b.blockHeight - 1) &&
      isRangeCoveredBeforeEnd (b :: rest)

/-- The existing start computation: most recent stored computation at or
below the start height (findOne with descending height order).  The
table list is already restricted to the request triple. -/
def findExistingStart (table : List StoredComputation) (startHeight : Int) :
    Option StoredComputation :=
  maxByHeight (·.blockHeight)
    (table.filter fun c => decide (c.blockHeight ≤ startHeight))

/-- The stored computations strictly inside the range, ascending. -/
def findExistingRest (table : List StoredComputation)
    (startHeight endHeight : Int) : List StoredComputation :=
  sortAscBy (·.blockHeight)
    (table.filter fun c =>
      decide (startHeight < c.blockHeight) &&
        decide (c.blockHeight ≤ endHeight))

/-- Observable actions of the compute endpoint, in the order they are
performed: stored-computation lookups, updateValidityUpToBlockHeight
calls (on the computation at the given height, up to the given height),
computeRange invocations, single block compute invocations, and
persistence of newly produced computations. -/
inductive Effect where
  | queryStoredStart
  | queryStoredRest
  | callUpdateValidity (onBlockHeight : Int) (toHeight : Int)
  | callComputeRange (startBlock : Block) (endBlock : Block)
  | evalCompute (blockHeight : Int)
  | persist (count : Nat)
deriving DecidableEq, Repr

/-- Results of the external collaborators the range branch awaits: the
two possible updateValidityUpToBlockHeight calls and the computeRange
invocation that fills a continuous but incomplete chain (none models a
thrown formula error). -/
structure RangeOracle where
  updateLast : Bool
  updateMergedLast : Bool
  missing : Option (List ComputationOutput)
deriving Repr

/-- The full range computation fallback: one computeRange call over the
whole requested range; none models a thrown formula error (status 400),
some models success (status 200). -/
def fullCompute (b0 b1 : Block) (fullRange : Option (List ComputationOutput))
    (effects : List Effect) : Nat × List Effect :=
  let e := effects ++ [Effect.callComputeRange b0 b1]
  match fullRange with
  | none => (400, e)
  | some _ => (200, e)

/-- The blocks branch of the compute endpoint (after the end block has
been capped at the latest block): when no step is given, try the range
reuse protocol over the stored computations; otherwise, and whenever
reuse fails, recompute the whole range. -/
def rangeBranch (table : List StoredComputation) (b0 b1 : Block)
    (blockStep timeStep : Option Int) (oracle : RangeOracle)
    (fullRange : Option (List ComputationOutput)) : Nat × List Effect :=
  if blockStep.isNone && timeStep.isNone then
    match findExistingStart table b0.height with
    | none => fullCompute b0 b1 fullRange [Effect.queryStoredStart]
    | some start =>
      let rest := findExistingRest table b0.height b1.height
      let existing := start :: rest
      let base := [Effect.queryStoredStart, Effect.queryStoredRest]
      if isRangeCoveredBeforeEnd existing then
        let lastC := rest.getLastD start
        let e1 := base ++ [Effect.callUpdateValidity lastC.blockHeight b1.height]
        if oracle.updateLast then (200, e1)
        else
          let e2 := e1 ++ [Effect.callComputeRange lastC.block b1]
          match oracle.missing with
          | none => (400, e2)
          | some missing =>
            let created := createFromComputationOutputs (missing.drop 1)
            let e3 := e2 ++ [Effect.persist created.length]
            let lastM := (rest ++ created).getLastD start
            let e4 :=
              e3 ++ [Effect.callUpdateValidity lastM.blockHeight b1.height]
            if oracle.updateMergedLast then (200, e4)
            else fullCompute b0 b1 fullRange e4
      else fullCompute b0 b1 fullRange base
  else fullCompute b0 b1 fullRange []

/-- The query parameters of a compute request after URL parsing.  Each
field is none when the parameter was absent, some none when the raw
string failed to parse (validateBlockString or BigInt threw), and
some (some v) when it parsed to v. -/
structure Request where
  blockQ : Option (Option Block) := none
  blocksQ : Option (Option (Block × Block)) := none
  blockStepQ : Option (Option Int) := none
  timeQ : Option (Option Int) := none
  timesQ : Option (Option (Int × Option Int)) := none
  timeStepQ : Option (Option Int) := none
deriving Repr

/-- The validated query parameters. -/
structure ValidatedQuery where
  block : Option Block
  blocks : Option (Block × Block)
  blockStep : Option Int
  time : Option Int
  times : Option (Int × Option Int)
  timeStep : Option Int
deriving DecidableEq, Repr

/-- Validation of the single block parameter: a supplied block string
that failed to parse is a 400 user error. -/
def validateBlockParam : Option (Option Block) → Except Nat (Option Block)
  | none => .ok none
  | some none => .error 400
  | some (some b) => .ok (some b)

/-- Validation of the blocks range and its step, in source order: a bad
range string, a start not strictly before the end (in height or time),
and a step that is not a positive integer are each a 400 user error.
The step is only examined when a blocks range was supplied. -/
def validateBlocksParam (blocksQ : Option (Option (Block × Block)))
    (blockStepQ : Option (Option Int)) :
    Except Nat (Option (Block × Block) × Option Int) :=
  match blocksQ with
  | none => .ok (none, none)
  | some none => .error 400
  | some (some (b0, b1)) =>
    if b0.height ≥ b1.height || b0.timeUnixMs ≥ b1.timeUnixMs then .error 400
    else
      match blockStepQ with
      | none => .ok (some (b0, b1), none)
      | some none => .error 400
      | some (some n) =>
        if n < 1 then .error 400 else .ok (some (b0, b1), some n)

/-- Validation of the single time parameter: unparseable or negative is
a 400 user error. -/
def validateTimeParam : Option (Option Int) → Except Nat (Option Int)
  | none => .ok none
  | some none => .error 400
  | some (some t) => if t < 0 then .error 400 else .ok (some t)

/-- Validation of the times range and its step, in source order: a bad
range string, a start not strictly before a supplied end, and a step
that is not a positive integer are each a 400 user error.  The step is
only examined when a times range was supplied. -/
def validateTimesParam (timesQ : Option (Option (Int × Option Int)))
    (timeStepQ : Option (Option Int)) :
    Except Nat (Option (Int × Option Int) × Option Int) :=
  match timesQ with
  | none => .ok (none, none)
  | some none => .error 400
  | some (some (t0, te)) =>
    if (te.map fun t1 => decide (t0 ≥ t1)).getD false then .error 400
    else
      match timeStepQ with
      | none => .ok (some (t0, te), none)
      | some none => .error 400
      | some (some n) =>
        if n < 1 then .error 400 else .ok (some (t0, te), some n)

/-- The block, blocks, time and times validation section of the compute
endpoint, in source order: the first failing check rejects the request. -/
def validate (req : Request) : Except Nat ValidatedQuery :=
  match validateBlockParam req.blockQ with
  | .error st => .error st
  | .ok block =>
    match validateBlocksParam req.blocksQ req.blockStepQ with
    | .error st => .error st
    | .ok (blocks, blockStep) =>
      match validateTimeParam req.timeQ with
      | .error st => .error st
      | .ok time =>
        match validateTimesParam req.timesQ req.timeStepQ with
        | .error st => .error st
        | .ok (times, timeStep) =>
          .ok ⟨block, blocks, blockStep, time, times, timeStep⟩

/-- The compute endpoint after API key, address and formula name
validation, for a non-test account with available credit.  Arguments
model the external lookups the handler awaits: whether the formula
exists, its dynamic flag, the result of the contract or validator
pre-checks (some status = rejected), the chain state latest block, the
block-for-time resolver with the first block fallback, the stored
computations for the request triple, the range oracles, and the single
block compute result (none models a thrown formula error).  Returns the
response status and the performed effects in order. -/
def computer (req : Request) (formulaKnown formulaDynamic : Bool)
    (addressCheckStatus : Option Nat) (latestBlock : Block)
    (blockForTime : Int → Option Block) (firstBlock : Option Block)
    (table : List StoredComputation) (oracle : RangeOracle)
    (fullRange : Option (List ComputationOutput))
    (single : Option (Option Json)) : Nat × List Effect :=
  match validate req with
  | .error st => (st, [])
  | .ok q =>
    if !formulaKnown then (404, [])
    else
      match addressCheckStatus with
      | some st => (st, [])
      | none =>
        if formulaDynamic && (q.blocks.isSome || q.times.isSome) then (400, [])
        else
          let block :=
            match q.time with
            | some t => blockForTime t
            | none => q.block
          let blocks :=
            match q.times with
            | some (t0, te) =>
              let startBlock :=
                match blockForTime t0 with
                | some b => some b
                | none => firstBlock
              let endBlock :=
                match te with
                | some t1 => blockForTime t1
                | none => some latestBlock
              match startBlock, endBlock with
              | some s0, some e0 => some (s0, e0)
              | _, _ => q.blocks
            | none => q.blocks
          match blocks with
          | some (b0, b1) =>
            let b1 := if b1.height > latestBlock.height then latestBlock else b1
            rangeBranch table b0 b1 q.blockStep q.timeStep oracle fullRange
          | none =>
            let effects := [Effect.evalCompute (block.getD latestBlock).height]
            match single with
            | none => (400, effects)
            | some _ => (200, effects)

end Computer

/-- A WasmStateEvent row matches the point read of get for the given
contract address and composed key at the target height. -/
def wasmMatchesAt (a k : String) (h : Int) (e : WasmStateEvent) : Prop :=
  e.contractAddress = a ∧ e.key = k ∧ e.blockHeight ≤ h

instance (a k : String) (h : Int) (e : WasmStateEvent) :
    Decidable (wasmMatchesAt a k h e) := by
  unfold wasmMatchesAt
  infer_instance

/-- A WasmStateEvent row matches the prefix read of getMap for the given
contract address and key prefix at the target height. -/
def wasmPfxMatchesAt (a keyPfx : String) (h : Int) (e : WasmStateEvent) :
    Prop :=
  e.contractAddress = a ∧ strStartsWith e.key keyPfx = true ∧ e.blockHeight ≤ h

instance (a keyPfx : String) (h : Int) (e : WasmStateEvent) :
    Decidable (wasmPfxMatchesAt a keyPfx h e) := by
  unfold wasmPfxMatchesAt
  infer_instance

/-- The address is a contract matching the given code id keys filter
(an empty filter accepts any existing contract), evaluated directly on
the database: the fresh-cache meaning of contractMatchesCodeIdKeys. -/
def contractTrackedBy (db : Db) (cfg : Config) (address : String)
    (keys : List String) : Bool :=
  match db.contracts.find? fun c => c.address == address with
  | none => false
  | some c =>
    keys.isEmpty || (findWasmCodeIdsByKeys cfg keys).contains c.codeId

/-- The address is a contract whose code id is resolved from the
configured bank-history code id keys: the condition under which
getBalance may fall back to BankStateEvent history. -/
def bankHistoryTracked (db : Db) (cfg : Config) (address : String) : Bool :=
  contractTrackedBy db cfg address cfg.bankHistoryCodeIdsKeys

/-- The pure value a get read yields from a resolved event: absent when
no row, absent for tombstones, else the JSON-parsed value. -/
def getValueOf : Option WasmStateEvent → Option Json
  | none => none
  | some e => if e.delete then none else some (Json.parse (e.value.getD "null"))

/-! ### Lemmas about the query helpers -/

theorem maxByHeight_eq_none_iff {height : α → Int} {l : List α} :
    maxByHeight height l = none ↔ l = [] := by
  cases l with
  | nil => simp [maxByHeight]
  | cons x xs =>
    simp only [maxByHeight]
    constructor
    · intro h
      cases hm : maxByHeight height xs with
      | none => rw [hm] at h; simp at h
      | some y =>
        rw [hm] at h
        simp only at h
        split at h <;> simp_all
    · intro h
      exact absurd h (List.cons_ne_nil x xs)

theorem maxByHeight_mem {height : α → Int} {l : List α} {x : α}
    (h : maxByHeight height l = some x) : x ∈ l := by
  induction l with
  | nil => simp [maxByHeight] at h
  | cons a l ih =>
    simp only [maxByHeight] at h
    cases hm : maxByHeight height l with
    | none => rw [hm] at h; simp at h; simp [h]
    | some y =>
      rw [hm] at h
      simp only at h
      split at h
      · simp at h; subst h; exact List.mem_cons_of_mem a (ih hm)
      · simp at h; simp [h]

theorem maxByHeight_dominant {height : α → Int} {l : List α} {e : α}
    (he : e ∈ l) (hdom : ∀ y ∈ l, y ≠ e → height y < height e) :
    maxByHeight height l = some e := by
  induction l with
  | nil => simp at he
  | cons a l ih =>
    cases hm : maxByHeight height l with
    | none =>
      have hl : l = [] := maxByHeight_eq_none_iff.mp hm
      subst hl
      simp at he
      simp [maxByHeight, he]
    | some y =>
      have hy : y ∈ l := maxByHeight_mem hm
      rcases List.mem_cons.mp he with hea | hel
      · rw [hea]
        by_cases hya : y = a
        · simp [maxByHeight, hm, hya]
        · have hlt := hdom y (List.mem_cons_of_mem _ hy)
            fun hyy => hya (hyy.trans hea)
          rw [hea] at hlt
          simp [maxByHeight, hm, not_lt.mpr hlt.le]
      · have hme : maxByHeight height l = some e :=
          ih hel fun z hz hne => hdom z (List.mem_cons_of_mem _ hz) hne
        rw [hm] at hme
        have hye : y = e := Option.some.inj hme
        rw [hye] at hm
        by_cases hae : a = e
        · simp [maxByHeight, hm, hae]
        · have hlt := hdom a (List.mem_cons_self a l) hae
          simp [maxByHeight, hm, hlt]

theorem mem_insertAscString {x y : String} {l : List String} :
    y ∈ insertAscString x l ↔ y = x ∨ y ∈ l := by
  induction l with
  | nil => simp [insertAscString]
  | cons a l ih =>
    simp only [insertAscString]
    split
    · simp
    · simp only [List.mem_cons, ih]
      tauto

theorem mem_sortedStrings {y : String} {l : List String} :
    y ∈ sortedStrings l ↔ y ∈ l := by
  induction l with
  | nil => simp [sortedStrings]
  | cons a l ih =>
    simp only [sortedStrings, List.foldr] at *
    rw [mem_insertAscString, ih]
    simp

theorem mem_dedupAdj {y : String} {l : List String} :
    y ∈ dedupAdj l ↔ y ∈ l := by
  induction l using dedupAdj.induct with
  | case1 => simp [dedupAdj]
  | case2 x => simp [dedupAdj]
  | case3 x x2 r heq ih =>
    simp only [dedupAdj, if_pos heq]
    rw [ih]
    have hx : x = x2 := by simpa using heq
    subst hx
    simp
  | case4 x x2 r heq ih =>
    simp only [dedupAdj, if_neg heq]
    simp only [List.mem_cons]
    rw [ih]
    simp

theorem distinctLatestBy_key_exists (keyOf : α → String) (height : α → Int)
    {rows : List α} {k : String} (h : ∃ r ∈ rows, keyOf r = k) :
    ∃ e ∈ distinctLatestBy keyOf height rows, keyOf e = k := by
  obtain ⟨r, hr, hk⟩ := h
  have hkmem : k ∈ dedupAdj (sortedStrings (rows.map keyOf)) := by
    rw [mem_dedupAdj, mem_sortedStrings]
    exact List.mem_map.mpr ⟨r, hr, hk⟩
  have hfilter : r ∈ rows.filter fun e => keyOf e == k := by
    rw [List.mem_filter]
    exact ⟨hr, by simp [hk]⟩
  have hne : (rows.filter fun e => keyOf e == k) ≠ [] :=
    List.ne_nil_of_mem hfilter
  cases hm : maxByHeight height (rows.filter fun e => keyOf e == k) with
  | none => exact absurd (maxByHeight_eq_none_iff.mp hm) hne
  | some e =>
    refine ⟨e, ?_, ?_⟩
    · exact List.mem_filterMap.mpr ⟨k, hkmem, hm⟩
    · have := maxByHeight_mem hm
      rw [List.mem_filter] at this
      simpa using this.2

/-! ### Projection lemmas for the getter tails -/

theorem finishGet_deps (ev : Option WasmStateEvent) (s : EnvState) :
    (Env.finishGet ev s).2.deps = s.deps := by
  cases ev with
  | none => rfl
  | some e =>
    simp only [Env.finishGet]
    split <;> rfl

theorem finishGet_reads (ev : Option WasmStateEvent) (s : EnvState) :
    (Env.finishGet ev s).2.reads = s.reads := by
  cases ev with
  | none => rfl
  | some e =>
    simp only [Env.finishGet]
    split <;> rfl

theorem finishGet_cache (ev : Option WasmStateEvent) (s : EnvState) :
    (Env.finishGet ev s).2.cache = s.cache := by
  cases ev with
  | none => rfl
  | some e =>
    simp only [Env.finishGet]
    split <;> rfl

theorem finishGet_fst (ev : Option WasmStateEvent) (s : EnvState) :
    (Env.finishGet ev s).1 =
      match ev with
      | none => none
      | some e =>
        if e.delete then none else some (Json.parse (e.value.getD "null")) := by
  cases ev with
  | none => rfl
  | some e =>
    simp only [Env.finishGet]
    split <;> simp_all

/-- The value of get with an untried memo entry is determined by the
findOne query: the most recent matching row, with tombstones absent. -/
theorem get_fst_of_cache_none (ctx : EnvCtx) (a k : String) (s : EnvState)
    (hc : s.cache.wasmEvents.lookup
      (getDependentKey WasmStateEvent.dependentKeyNamespace [a, k]) = none) :
    (Env.get ctx a k s).1 =
      match wasmFindLatest ctx.db.wasmEvents a k ctx.block.height with
      | none => none
      | some e =>
        if e.delete then none else some (Json.parse (e.value.getD "null")) := by
  simp only [Env.get, hc]
  exact finishGet_fst _ _

/-- The boolean filter of the get query agrees with the match
predicate. -/
theorem wasmFilter_pred_iff (a k : String) (h : Int) (e : WasmStateEvent) :
    (e.contractAddress == a && e.key == k && decide (e.blockHeight ≤ h))
        = true ↔
      wasmMatchesAt a k h e := by
  simp [wasmMatchesAt, and_assoc]

/-- C1: For every contract address, composed key and target block (with
the memo entry for that key untried), the get getter returns the
JSON-parsed value of the WasmStateEvent row with the greatest
blockHeight at or below the target height for that (contractAddress,
key); it returns absent when no such row exists, and absent when that
most recent row is a tombstone, so a tombstone shadows earlier values at
and after its height. -/
theorem get_effective_value (ctx : EnvCtx) (a k : String) (s : EnvState)
    (hc : s.cache.wasmEvents.lookup
      (getDependentKey WasmStateEvent.dependentKeyNamespace [a, k]) = none) :
    ((∀ e ∈ ctx.db.wasmEvents, ¬ wasmMatchesAt a k ctx.block.height e) →
      (Env.get ctx a k s).1 = none) ∧
    (∀ e ∈ ctx.db.wasmEvents, wasmMatchesAt a k ctx.block.height e →
      (∀ e2 ∈ ctx.db.wasmEvents, wasmMatchesAt a k ctx.block.height e2 →
        e2 ≠ e → e2.blockHeight < e.blockHeight) →
      (Env.get ctx a k s).1 =
        if e.delete = true then none
        else some (Json.parse (e.value.getD "null"))) := by
  constructor
  · intro h
    have hfil :
        ctx.db.wasmEvents.filter
          (fun e =>
            e.contractAddress == a && e.key == k &&
              decide (e.blockHeight ≤ ctx.block.height)) = [] := by
      rw [List.filter_eq_nil_iff]
      intro e he
      rw [wasmFilter_pred_iff]
      exact h e he
    rw [get_fst_of_cache_none ctx a k s hc]
    unfold wasmFindLatest
    rw [hfil]
    rfl
  · intro e he hm hdom
    have hfind :
        wasmFindLatest ctx.db.wasmEvents a k ctx.block.height = some e := by
      unfold wasmFindLatest
      apply maxByHeight_dominant
      · exact List.mem_filter.mpr ⟨he, (wasmFilter_pred_iff a k _ e).mpr hm⟩
      · intro y hy hne
        have hy2 := List.mem_filter.mp hy
        exact hdom y hy2.1 ((wasmFilter_pred_iff a k _ y).mp hy2.2) hne
    rw [get_fst_of_cache_none ctx a k s hc, hfind]

/-- Witness for C1: with a value written at height 10 and a tombstone at
height 25, the point read at height 27 is absent. -/
theorem get_effective_value_witness :
    (Env.get
      ⟨⟨[⟨"a", "k", 10, 10, some "1", false⟩, ⟨"a", "k", 25, 25, none, true⟩],
          [], [], [], [], []⟩,
        ⟨[], []⟩, ⟨27, 27⟩⟩
      "a" "k" EnvState.init).1 = none := by
  exact
    ((get_effective_value
          ⟨⟨[⟨"a", "k", 10, 10, some "1", false⟩,
              ⟨"a", "k", 25, 25, none, true⟩], [], [], [], [], []⟩,
            ⟨[], []⟩, ⟨27, 27⟩⟩
          "a" "k" EnvState.init (by decide)).2
        ⟨"a", "k", 25, 25, none, true⟩ (by decide) (by decide)
        (by decide)).trans
      (by decide)

theorem finishGetMap_fst (keyPfx : String) (decodeKey : String → String)
    (events : List WasmStateEvent) (s : EnvState) :
    (Env.finishGetMap keyPfx decodeKey events s).1 =
      if events.isEmpty then none
      else
        some
          ((events.filter fun e => !e.delete).map fun e =>
            (decodeKey (strDrop e.key keyPfx.length),
              Json.parse (e.value.getD "null"))) := by
  simp only [Env.finishGetMap]
  split <;> rfl

/-- The value of getMap with an untried memo entry is determined by the
DISTINCT ON query over the rows matching the key prefix. -/
theorem getMap_fst_of_cache_none (ctx : EnvCtx) (a keyPfx : String)
    (decodeKey : String → String) (s : EnvState)
    (hc : s.cache.wasmEvents.lookup
      (getDependentKey WasmStateEvent.dependentKeyNamespace [a, keyPfx]) =
        none) :
    (Env.getMap ctx a keyPfx decodeKey s).1 =
      (Env.finishGetMap keyPfx decodeKey
        (distinctLatestBy (·.key) (·.blockHeight)
          (ctx.db.wasmEvents.filter fun e =>
            e.contractAddress == a && strStartsWith e.key keyPfx &&
              decide (e.blockHeight ≤ ctx.block.height)))
        s).1 := by
  simp only [Env.getMap, hc]
  rw [finishGetMap_fst, finishGetMap_fst]

/-- The boolean filter of the getMap query agrees with the prefix match
predicate. -/
theorem wasmPfxFilter_pred_iff (a keyPfx : String) (h : Int)
    (e : WasmStateEvent) :
    (e.contractAddress == a && strStartsWith e.key keyPfx &&
        decide (e.blockHeight ≤ h)) = true ↔
      wasmPfxMatchesAt a keyPfx h e := by
  simp [wasmPfxMatchesAt, and_assoc]

/-- C10: For every contract address, map prefix and target block (with
the memo entry for that prefix untried), getMap returns absent when no
WasmStateEvent row at or below the target block matches the key prefix,
but returns an empty mapping (not absent) when matching rows exist and
every most recent row per key is a tombstone. -/
theorem getMap_absent_vs_empty (ctx : EnvCtx) (a keyPfx : String)
    (decodeKey : String → String) (s : EnvState)
    (hc : s.cache.wasmEvents.lookup
      (getDependentKey WasmStateEvent.dependentKeyNamespace [a, keyPfx]) =
        none) :
    ((∀ e ∈ ctx.db.wasmEvents, ¬ wasmPfxMatchesAt a keyPfx ctx.block.height e) →
      (Env.getMap ctx a keyPfx decodeKey s).1 = none) ∧
    ((∃ e ∈ ctx.db.wasmEvents, wasmPfxMatchesAt a keyPfx ctx.block.height e) →
      (∀ e ∈
          distinctLatestBy (fun e => e.key) (fun e => e.blockHeight)
            (ctx.db.wasmEvents.filter fun e =>
              e.contractAddress == a && strStartsWith e.key keyPfx &&
                decide (e.blockHeight ≤ ctx.block.height)),
        e.delete = true) →
      (Env.getMap ctx a keyPfx decodeKey s).1 = some []) := by
  constructor
  · intro h
    have hfil :
        ctx.db.wasmEvents.filter
          (fun e =>
            e.contractAddress == a && strStartsWith e.key keyPfx &&
              decide (e.blockHeight ≤ ctx.block.height)) = [] := by
      rw [List.filter_eq_nil_iff]
      intro e he
      rw [wasmPfxFilter_pred_iff]
      exact h e he
    rw [getMap_fst_of_cache_none ctx a keyPfx decodeKey s hc, hfil]
    rfl
  · intro hex hdel
    obtain ⟨e, he, hm⟩ := hex
    have hemem :
        e ∈
          ctx.db.wasmEvents.filter fun e =>
            e.contractAddress == a && strStartsWith e.key keyPfx &&
              decide (e.blockHeight ≤ ctx.block.height) :=
      List.mem_filter.mpr ⟨he, (wasmPfxFilter_pred_iff a keyPfx _ e).mpr hm⟩
    obtain ⟨e2, he2, -⟩ :=
      distinctLatestBy_key_exists (fun e => e.key) (fun e => e.blockHeight)
        ⟨e, hemem, rfl⟩
    rw [getMap_fst_of_cache_none ctx a keyPfx decodeKey s hc, finishGetMap_fst]
    have hne :
        (distinctLatestBy (fun e => e.key) (fun e => e.blockHeight)
            (ctx.db.wasmEvents.filter fun e =>
              e.contractAddress == a && strStartsWith e.key keyPfx &&
                decide (e.blockHeight ≤ ctx.block.height))).isEmpty = false := by
      cases hd :
          distinctLatestBy (fun e => e.key) (fun e => e.blockHeight)
            (ctx.db.wasmEvents.filter fun e =>
              e.contractAddress == a && strStartsWith e.key keyPfx &&
                decide (e.blockHeight ≤ ctx.block.height)) with
      | nil =>
        rw [hd] at he2
        simp at he2
      | cons x xs => rfl
    rw [hne]
    have hfil2 :
        (distinctLatestBy (fun e => e.key) (fun e => e.blockHeight)
            (ctx.db.wasmEvents.filter fun e =>
              e.contractAddress == a && strStartsWith e.key keyPfx &&
                decide (e.blockHeight ≤ ctx.block.height))).filter
            (fun e => !e.delete) = [] := by
      rw [List.filter_eq_nil_iff]
      intro x hx
      simp [hdel x hx]
    simp [hfil2]

/-- Witness for C10: one row under the prefix whose most recent version
is a tombstone yields the empty mapping, not absent. -/
theorem getMap_absent_vs_empty_witness :
    (Env.getMap
      ⟨⟨[⟨"a", "9,k", 10, 10, some "1", true⟩], [], [], [], [], []⟩,
        ⟨[], []⟩, ⟨27, 27⟩⟩
      "a" "9," (fun t => t) EnvState.init).1 = some [] := by
  exact
    (getMap_absent_vs_empty
        ⟨⟨[⟨"a", "9,k", 10, 10, some "1", true⟩], [], [], [], [], []⟩,
          ⟨[], []⟩, ⟨27, 27⟩⟩
        "a" "9," (fun t => t) EnvState.init (by decide)).2
      ⟨⟨"a", "9,k", 10, 10, some "1", true⟩, by decide, by decide⟩ (by decide)

/-! ### Projection lemmas for get and the prefetch cache writes -/

theorem finishGet_fst_eq (ev : Option WasmStateEvent) (s : EnvState) :
    (Env.finishGet ev s).1 = getValueOf ev := by
  cases ev with
  | none => rfl
  | some e =>
    simp only [Env.finishGet, getValueOf]
    split <;> simp_all

/-- The value of get as a function of the memo entry and the database. -/
theorem get_fst_eq (ctx : EnvCtx) (a k : String) (s : EnvState) :
    (Env.get ctx a k s).1 =
      getValueOf
        (match
          s.cache.wasmEvents.lookup
            (getDependentKey WasmStateEvent.dependentKeyNamespace [a, k]) with
        | some entry => entry.bind List.head?
        | none => wasmFindLatest ctx.db.wasmEvents a k ctx.block.height) := by
  cases hl :
      s.cache.wasmEvents.lookup
        (getDependentKey WasmStateEvent.dependentKeyNamespace [a, k]) with
  | some entry => simp only [Env.get, hl, finishGet_fst_eq]
  | none => simp only [Env.get, hl, finishGet_fst_eq]

/-- The memo after get: untouched on a memo hit, extended with the fetch
result (null when absent) on a miss. -/
theorem get_snd_cache (ctx : EnvCtx) (a k : String) (s : EnvState) :
    (Env.get ctx a k s).2.cache.wasmEvents =
      match
        s.cache.wasmEvents.lookup
          (getDependentKey WasmStateEvent.dependentKeyNamespace [a, k]) with
      | some _ => s.cache.wasmEvents
      | none =>
        (getDependentKey WasmStateEvent.dependentKeyNamespace [a, k],
            (wasmFindLatest ctx.db.wasmEvents a k ctx.block.height).map
              fun e => [e]) ::
          s.cache.wasmEvents := by
  cases hl :
      s.cache.wasmEvents.lookup
        (getDependentKey WasmStateEvent.dependentKeyNamespace [a, k]) with
  | some entry => simp only [Env.get, hl, finishGet_cache]
  | none => simp only [Env.get, hl, finishGet_cache]

/-- The reads after get: one findOne on a memo miss, none on a hit. -/
theorem get_snd_reads (ctx : EnvCtx) (a k : String) (s : EnvState) :
    (Env.get ctx a k s).2.reads =
      match
        s.cache.wasmEvents.lookup
          (getDependentKey WasmStateEvent.dependentKeyNamespace [a, k]) with
      | some _ => s.reads
      | none => s.reads ++ [ReadTag.wasmFindOne] := by
  cases hl :
      s.cache.wasmEvents.lookup
        (getDependentKey WasmStateEvent.dependentKeyNamespace [a, k]) with
  | some entry => simp only [Env.get, hl, finishGet_reads]
  | none => simp only [Env.get, hl, finishGet_reads]

/-- The dependency recorder after get: the exact dependent key is
appended unconditionally, before the fetch result is known. -/
theorem get_snd_deps (ctx : EnvCtx) (a k : String) (s : EnvState) :
    (Env.get ctx a k s).2.deps =
      s.deps ++
        [DepKey.mk
          (getDependentKey WasmStateEvent.dependentKeyNamespace [a, k])
          false] := by
  cases hl :
      s.cache.wasmEvents.lookup
        (getDependentKey WasmStateEvent.dependentKeyNamespace [a, k]) with
  | some entry => simp only [Env.get, hl, finishGet_deps]
  | none => simp only [Env.get, hl, finishGet_deps]

theorem lookup_cons_isSome {β : Type _} (dk : String) (p : String × β)
    (l : List (String × β)) (h : (List.lookup dk l).isSome = true) :
    (List.lookup dk (p :: l)).isSome = true := by
  obtain ⟨k0, v0⟩ := p
  simp only [List.lookup]
  cases hdk : dk == k0 <;> simp [h]

theorem lookup_cons_self {β : Type _} (dk : String) (v : β)
    (l : List (String × β)) : List.lookup dk ((dk, v) :: l) = some v := by
  simp [List.lookup]

theorem prefetchWriteNonMap_cache_isSome (a : String)
    (evs : List WasmStateEvent) (st : EnvState) (k dk : String)
    (h : (List.lookup dk st.cache.wasmEvents).isSome = true) :
    (List.lookup dk
        (Env.prefetchWriteNonMap a evs st k).cache.wasmEvents).isSome =
      true := by
  simp only [Env.prefetchWriteNonMap]
  exact lookup_cons_isSome dk _ _ h

theorem prefetchWriteMapEvent_cache_isSome (a : String) (st : EnvState)
    (e : WasmStateEvent) (dk : String)
    (h : (List.lookup dk st.cache.wasmEvents).isSome = true) :
    (List.lookup dk
        (Env.prefetchWriteMapEvent a st e).cache.wasmEvents).isSome = true := by
  simp only [Env.prefetchWriteMapEvent]
  exact lookup_cons_isSome dk _ _ h

theorem foldl_mapEvent_cache_isSome (a : String) (evs : List WasmStateEvent)
    (st : EnvState) (dk : String)
    (h : (List.lookup dk st.cache.wasmEvents).isSome = true) :
    (List.lookup dk
        (evs.foldl (Env.prefetchWriteMapEvent a) st).cache.wasmEvents).isSome =
      true := by
  induction evs generalizing st with
  | nil => exact h
  | cons e es ih =>
    exact ih _ (prefetchWriteMapEvent_cache_isSome a st e dk h)

theorem prefetchWriteMapPfx_cache_isSome (a : String)
    (evs : List WasmStateEvent) (st : EnvState) (p dk : String)
    (h : (List.lookup dk st.cache.wasmEvents).isSome = true) :
    (List.lookup dk
        (Env.prefetchWriteMapPfx a evs st p).cache.wasmEvents).isSome = true := by
  simp only [Env.prefetchWriteMapPfx]
  exact foldl_mapEvent_cache_isSome a _ _ dk (lookup_cons_isSome dk _ _ h)

theorem foldl_nonMap_cache_isSome (a : String) (evs : List WasmStateEvent)
    (ks : List String) (st : EnvState) (dk : String)
    (h : (List.lookup dk st.cache.wasmEvents).isSome = true) :
    (List.lookup dk
        ((ks.foldl (Env.prefetchWriteNonMap a evs) st)).cache.wasmEvents).isSome =
      true := by
  induction ks generalizing st with
  | nil => exact h
  | cons k0 ks ih =>
    exact ih _ (prefetchWriteNonMap_cache_isSome a evs st k0 dk h)

theorem foldl_mapPfx_cache_isSome (a : String) (evs : List WasmStateEvent)
    (ps : List String) (st : EnvState) (dk : String)
    (h : (List.lookup dk st.cache.wasmEvents).isSome = true) :
    (List.lookup dk
        ((ps.foldl (Env.prefetchWriteMapPfx a evs) st)).cache.wasmEvents).isSome =
      true := by
  induction ps generalizing st with
  | nil => exact h
  | cons p0 ps ih =>
    exact ih _ (prefetchWriteMapPfx_cache_isSome a evs st p0 dk h)

theorem prefetchWriteNonMap_cache_eq (a : String)
    (evs : List WasmStateEvent) (st : EnvState) (k : String) :
    (Env.prefetchWriteNonMap a evs st k).cache.wasmEvents =
      (getDependentKey WasmStateEvent.dependentKeyNamespace [a, k],
          match evs.find? fun e => e.key == k with
          | none => none
          | some e => if e.delete then none else some [e]) ::
        st.cache.wasmEvents := rfl

theorem prefetchWriteMapEvent_cache_eq (a : String) (st : EnvState)
    (e : WasmStateEvent) :
    (Env.prefetchWriteMapEvent a st e).cache.wasmEvents =
      (getDependentKey WasmStateEvent.dependentKeyNamespace [a, e.key],
          if e.delete then none else some [e]) ::
        st.cache.wasmEvents := rfl

theorem foldl_nonMap_cache_establish (a : String) (evs : List WasmStateEvent)
    (ks : List String) (st : EnvState) (k : String) (hk : k ∈ ks) :
    (List.lookup (getDependentKey WasmStateEvent.dependentKeyNamespace [a, k])
        ((ks.foldl (Env.prefetchWriteNonMap a evs) st)).cache.wasmEvents).isSome =
      true := by
  induction ks generalizing st with
  | nil => simp at hk
  | cons k0 ks ih =>
    rw [List.foldl_cons]
    rcases List.mem_cons.mp hk with hk0 | hks
    · subst hk0
      apply foldl_nonMap_cache_isSome
      rw [prefetchWriteNonMap_cache_eq, lookup_cons_self]
      rfl
    · exact ih _ hks

theorem foldl_mapEvent_cache_establish (a : String)
    (evs : List WasmStateEvent) (st : EnvState) (e : WasmStateEvent)
    (he : e ∈ evs) :
    (List.lookup
        (getDependentKey WasmStateEvent.dependentKeyNamespace [a, e.key])
        ((evs.foldl (Env.prefetchWriteMapEvent a) st)).cache.wasmEvents).isSome =
      true := by
  induction evs generalizing st with
  | nil => simp at he
  | cons e0 es ih =>
    rw [List.foldl_cons]
    rcases List.mem_cons.mp he with he0 | hes
    · subst he0
      apply foldl_mapEvent_cache_isSome
      rw [prefetchWriteMapEvent_cache_eq, lookup_cons_self]
      rfl
    · exact ih _ hes

theorem prefetchWriteMapPfx_cache_establish (a : String)
    (evs : List WasmStateEvent) (st : EnvState) (p : String)
    (e : WasmStateEvent) (he : e ∈ evs) (hsw : strStartsWith e.key p = true) :
    (List.lookup
        (getDependentKey WasmStateEvent.dependentKeyNamespace [a, e.key])
        ((Env.prefetchWriteMapPfx a evs st p)).cache.wasmEvents).isSome =
      true := by
  simp only [Env.prefetchWriteMapPfx]
  apply foldl_mapEvent_cache_establish
  exact List.mem_filter.mpr ⟨he, hsw⟩

theorem foldl_mapPfx_cache_establish (a : String) (evs : List WasmStateEvent)
    (ps : List String) (st : EnvState) (p : String) (hp : p ∈ ps)
    (e : WasmStateEvent) (he : e ∈ evs) (hsw : strStartsWith e.key p = true) :
    (List.lookup
        (getDependentKey WasmStateEvent.dependentKeyNamespace [a, e.key])
        ((ps.foldl (Env.prefetchWriteMapPfx a evs) st)).cache.wasmEvents).isSome =
      true := by
  induction ps generalizing st with
  | nil => simp at hp
  | cons p0 ps ih =>
    rw [List.foldl_cons]
    rcases List.mem_cons.mp hp with hp0 | hps
    · subst hp0
      apply foldl_mapPfx_cache_isSome
      exact prefetchWriteMapPfx_cache_establish a evs st p e he hsw
    · exact ih _ hps

theorem map_singleton_bind_head (ev : Option WasmStateEvent) :
    (ev.map fun e => [e]).bind List.head? = ev := by
  cases ev <;> rfl

/-- The memo entry for a non-map key requested by prefetch is always
populated (positively or negatively). -/
theorem prefetch_cache_establish_nonMap (ctx : EnvCtx) (a k : String)
    (lks : List Env.PrefetchKey) (s : EnvState)
    (hk : Env.PrefetchKey.mk k false ∈ lks) :
    (List.lookup (getDependentKey WasmStateEvent.dependentKeyNamespace [a, k])
        (Env.prefetch ctx a lks s).cache.wasmEvents).isSome = true := by
  simp only [Env.prefetch]
  apply foldl_mapPfx_cache_isSome
  apply foldl_nonMap_cache_establish
  exact
    List.mem_map.mpr
      ⟨Env.PrefetchKey.mk k false, List.mem_filter.mpr ⟨hk, by simp⟩, rfl⟩

/-- The memo entry for a key under a prefetched map prefix is populated
whenever a matching row for that exact key exists at or below the
target block. -/
theorem prefetch_cache_establish_mapPfx (ctx : EnvCtx) (a p k : String)
    (lks : List Env.PrefetchKey) (s : EnvState)
    (hp : Env.PrefetchKey.mk p true ∈ lks)
    (hr : ∃ r ∈ ctx.db.wasmEvents,
      r.contractAddress = a ∧ r.key = k ∧ r.blockHeight ≤ ctx.block.height)
    (hsw : strStartsWith k p = true) (hlen : p.length < k.length) :
    (List.lookup (getDependentKey WasmStateEvent.dependentKeyNamespace [a, k])
        (Env.prefetch ctx a lks s).cache.wasmEvents).isSome = true := by
  obtain ⟨r, hrmem, hra, hrk, hrh⟩ := hr
  have hpmem : p ∈ (lks.filter fun pk => pk.map).map fun pk => pk.key :=
    List.mem_map.mpr
      ⟨Env.PrefetchKey.mk p true, List.mem_filter.mpr ⟨hp, by simp⟩, rfl⟩
  have hmatch :
      Env.prefetchKeyMatches ((lks.filter fun pk => !pk.map).map fun pk => pk.key)
        ((lks.filter fun pk => pk.map).map fun pk => pk.key) r.key = true := by
    unfold Env.prefetchKeyMatches
    split
    · rfl
    · refine Bool.or_eq_true _ _ |>.mpr (Or.inr ?_)
      refine List.any_eq_true.mpr ⟨p, hpmem, ?_⟩
      rw [hrk]
      simp [hsw, hlen]
  have hrfil :
      r ∈
        ctx.db.wasmEvents.filter fun e =>
          e.contractAddress == a &&
            Env.prefetchKeyMatches
              ((lks.filter fun pk => !pk.map).map fun pk => pk.key)
              ((lks.filter fun pk => pk.map).map fun pk => pk.key) e.key &&
            decide (e.blockHeight ≤ ctx.block.height) := by
    refine List.mem_filter.mpr ⟨hrmem, ?_⟩
    simp [hra, hrh, hmatch]
  obtain ⟨e, heMem, heKey⟩ :=
    distinctLatestBy_key_exists (fun e => e.key) (fun e => e.blockHeight)
      ⟨r, hrfil, hrk⟩
  rw [show k = e.key from heKey.symm]
  simp only [Env.prefetch]
  exact
    foldl_mapPfx_cache_establish a _ _ _ p hpmem e heMem
      (by rw [heKey]; exact hsw)

/-- C8 (amended): within one evaluation, a second get of the same
contract address and composed key performs zero additional database
reads and returns the same value as the first; a key requested exactly
by an earlier prefetch, or lying under a prefetched map prefix while
having a matching row at or below the target block, is likewise served
from the memo with zero additional reads.  (A key under a prefetched
map prefix with no matching row is not negatively cached and incurs one
additional read; see the counterexample.) -/
theorem memo_zero_additional_reads (ctx : EnvCtx) (a k p : String)
    (lks : List Env.PrefetchKey) (s : EnvState) :
    ((Env.get ctx a k ((Env.get ctx a k s).2)).1 = (Env.get ctx a k s).1 ∧
      (Env.get ctx a k ((Env.get ctx a k s).2)).2.reads =
        (Env.get ctx a k s).2.reads) ∧
    (Env.PrefetchKey.mk k false ∈ lks →
      (Env.get ctx a k (Env.prefetch ctx a lks s)).2.reads =
        (Env.prefetch ctx a lks s).reads) ∧
    (Env.PrefetchKey.mk p true ∈ lks →
      (∃ r ∈ ctx.db.wasmEvents,
        r.contractAddress = a ∧ r.key = k ∧
          r.blockHeight ≤ ctx.block.height) →
      strStartsWith k p = true → p.length < k.length →
      (Env.get ctx a k (Env.prefetch ctx a lks s)).2.reads =
        (Env.prefetch ctx a lks s).reads) := by
  refine ⟨?_, ?_, ?_⟩
  · cases hl :
        s.cache.wasmEvents.lookup
          (getDependentKey WasmStateEvent.dependentKeyNamespace [a, k]) with
    | some entry =>
      have h2 : (Env.get ctx a k s).2.cache.wasmEvents = s.cache.wasmEvents := by
        rw [get_snd_cache, hl]
      constructor
      · rw [get_fst_eq ctx a k ((Env.get ctx a k s).2), get_fst_eq ctx a k s,
          h2, hl]
      · rw [get_snd_reads ctx a k ((Env.get ctx a k s).2), h2, hl]
    | none =>
      have h2 :
          (Env.get ctx a k s).2.cache.wasmEvents =
            (getDependentKey WasmStateEvent.dependentKeyNamespace [a, k],
                (wasmFindLatest ctx.db.wasmEvents a k ctx.block.height).map
                  fun e => [e]) ::
              s.cache.wasmEvents := by
        rw [get_snd_cache, hl]
      constructor
      · rw [get_fst_eq ctx a k ((Env.get ctx a k s).2), get_fst_eq ctx a k s,
          h2, lookup_cons_self, hl]
        simp only [map_singleton_bind_head]
      · rw [get_snd_reads ctx a k ((Env.get ctx a k s).2), h2, lookup_cons_self]
  · intro hk
    obtain ⟨entry, hentry⟩ :=
      Option.isSome_iff_exists.mp
        (prefetch_cache_establish_nonMap ctx a k lks s hk)
    rw [get_snd_reads, hentry]
  · intro hp hr hsw hlen
    obtain ⟨entry, hentry⟩ :=
      Option.isSome_iff_exists.mp
        (prefetch_cache_establish_mapPfx ctx a p k lks s hp hr hsw hlen)
    rw [get_snd_reads, hentry]

/-- Counterexample to C8 as stated: with an empty event table, prefetch
of the map prefix 5-comma leaves no negative memo entry for the exact
key 5-comma-7 under it, so a subsequent get of that key performs one
additional database read (the claim asserts zero). -/
theorem prefetched_prefix_miss_reads_again :
    (Env.get ⟨⟨[], [], [], [], [], []⟩, ⟨[], []⟩, ⟨5, 5⟩⟩ "a" "5,7"
        (Env.prefetch ⟨⟨[], [], [], [], [], []⟩, ⟨[], []⟩, ⟨5, 5⟩⟩ "a"
          [Env.PrefetchKey.mk "5," true] EnvState.init)).2.reads =
      [ReadTag.wasmFindAll, ReadTag.wasmFindOne] ∧
    (Env.prefetch ⟨⟨[], [], [], [], [], []⟩, ⟨[], []⟩, ⟨5, 5⟩⟩ "a"
        [Env.PrefetchKey.mk "5," true] EnvState.init).reads =
      [ReadTag.wasmFindAll] := by
  constructor
  · decide
  · decide

/-- Witness for C8 (amended): a row for key 5-comma-7 exists, so after
prefetching the map prefix 5-comma the get of the exact key does no
further read. -/
theorem memo_zero_additional_reads_witness :
    (Env.get
        ⟨⟨[⟨"a", "5,7", 10, 10, some "1", false⟩], [], [], [], [], []⟩,
          ⟨[], []⟩, ⟨20, 20⟩⟩
        "a" "5,7"
        (Env.prefetch
          ⟨⟨[⟨"a", "5,7", 10, 10, some "1", false⟩], [], [], [], [], []⟩,
            ⟨[], []⟩, ⟨20, 20⟩⟩
          "a" [Env.PrefetchKey.mk "5," true] EnvState.init)).2.reads =
      (Env.prefetch
        ⟨⟨[⟨"a", "5,7", 10, 10, some "1", false⟩], [], [], [], [], []⟩,
          ⟨[], []⟩, ⟨20, 20⟩⟩
        "a" [Env.PrefetchKey.mk "5," true] EnvState.init).reads := by
  exact
    (memo_zero_additional_reads
          ⟨⟨[⟨"a", "5,7", 10, 10, some "1", false⟩], [], [], [], [], []⟩,
            ⟨[], []⟩, ⟨20, 20⟩⟩
          "a" "5,7" "5," [Env.PrefetchKey.mk "5," true] EnvState.init).2.2
      (by decide)
      ⟨⟨"a", "5,7", 10, 10, some "1", false⟩, by decide, by decide, by decide,
        by decide⟩
      (by decide) (by decide)

/-- With a fresh contract cache, contractMatchesCodeIdKeys is the pure
database check, plus one contract read and a contract cache write. -/
theorem contractMatchesCodeIdKeys_fresh (ctx : EnvCtx) (address : String)
    (keys : List String) (s : EnvState)
    (hct : s.cache.contracts.lookup address = none) :
    Env.contractMatchesCodeIdKeys ctx address keys s =
      (contractTrackedBy ctx.db ctx.cfg address keys,
        { s with
          reads := s.reads ++ [ReadTag.contractFindOne],
          cache :=
            { s.cache with
              contracts :=
                (address, ctx.db.contracts.find? fun c => c.address == address) ::
                  s.cache.contracts } }) := by
  simp only [Env.contractMatchesCodeIdKeys, Env.getContract, hct]
  cases hf : ctx.db.contracts.find? fun c => c.address == address with
  | none =>
    by_cases hke : keys.isEmpty <;>
      simp [contractTrackedBy, hf, hke]
  | some c =>
    by_cases hke : keys.isEmpty
    · simp [contractTrackedBy, hf, hke]
    · by_cases hco : c.codeId ∈ findWasmCodeIdsByKeys ctx.cfg keys <;>
        simp [contractTrackedBy, hf, hke, hco, List.contains, List.elem_eq_mem]

/-- With fresh contract and history memo entries, the getBalanceHistory
fallback is the pure eligibility check followed (for tracked contracts)
by the history fetch with its dependent key recorded first. -/
theorem getBalanceHistory_fresh (ctx : EnvCtx) (address denom : String)
    (s : EnvState) (hct : s.cache.contracts.lookup address = none)
    (hbs : s.cache.bankStateEvents.lookup
      (getDependentKey BankStateEvent.dependentKeyNamespace [address, denom]) =
        none) :
    (bankHistoryTracked ctx.db ctx.cfg address = false →
      (Env.getBalanceHistory ctx address denom s).1 = none ∧
        (Env.getBalanceHistory ctx address denom s).2.deps = s.deps ∧
        (Env.getBalanceHistory ctx address denom s).2.reads =
          s.reads ++ [ReadTag.contractFindOne]) ∧
    (bankHistoryTracked ctx.db ctx.cfg address = true →
      (Env.getBalanceHistory ctx address denom s).1 =
        (maxByHeight (fun e => e.blockHeight)
            (ctx.db.bankStateEvents.filter fun e =>
              e.address == address && e.denom == denom &&
                decide (e.blockHeight ≤ ctx.block.height))).map
          (fun e => e.balance) ∧
        (Env.getBalanceHistory ctx address denom s).2.deps =
          s.deps ++
            [DepKey.mk
              (getDependentKey BankStateEvent.dependentKeyNamespace
                [address, denom])
              false] ∧
        (Env.getBalanceHistory ctx address denom s).2.reads =
          s.reads ++ [ReadTag.contractFindOne, ReadTag.bankStateFindOne]) := by
  constructor
  · intro htr
    rw [bankHistoryTracked] at htr
    simp only [Env.getBalanceHistory]
    rw [contractMatchesCodeIdKeys_fresh ctx address _ s hct]
    simp only [htr, Bool.not_false, if_true]
    exact ⟨by trivial, by trivial, by trivial⟩
  · intro htr
    rw [bankHistoryTracked] at htr
    simp only [Env.getBalanceHistory]
    rw [contractMatchesCodeIdKeys_fresh ctx address _ s hct]
    simp only [htr, Bool.not_true, Bool.false_eq_true, if_false, hbs]
    cases hev :
        maxByHeight (fun (e : BankStateEvent) => e.blockHeight)
          (ctx.db.bankStateEvents.filter fun e =>
            e.address == address && e.denom == denom &&
              decide (e.blockHeight ≤ ctx.block.height)) with
    | none =>
      refine ⟨by trivial, by trivial, ?_⟩
      exact List.append_assoc _ _ _
    | some e =>
      refine ⟨by trivial, by trivial, ?_⟩
      exact List.append_assoc _ _ _

/-- When no BankBalance snapshot row matches, getBalance performs the
snapshot read (recording no dependent key), memoises the negative
result and enters the history fallback. -/
theorem getBalance_none_eq (ctx : EnvCtx) (address denom : String)
    (s : EnvState)
    (hbb : s.cache.bankBalanceEvents.lookup
      (getDependentKey BankBalance.dependentKeyNamespace [address]) = none)
    (hhead :
      (ctx.db.bankBalances.filter fun b2 =>
        b2.address == address &&
          decide (b2.blockHeight ≤ ctx.block.height)).head? = none) :
    Env.getBalance ctx address denom s =
      Env.getBalanceHistory ctx address denom
        { s with
          reads := s.reads ++ [ReadTag.bankBalanceFindOne],
          cache :=
            { s.cache with
              bankBalanceEvents :=
                (getDependentKey BankBalance.dependentKeyNamespace [address],
                    none) ::
                  s.cache.bankBalanceEvents } } := by
  simp only [Env.getBalance, hbb, hhead]
  rfl

/-- Full characterization of getBalance with fresh memo entries: the
BankBalance snapshot is consulted first (with no dependent key); only
when no snapshot row exists is the bank-history eligibility check run,
and only for tracked contracts is the BankStateEvent history fetched,
its dependent key recorded just before that fetch. -/
theorem getBalance_fresh_spec (ctx : EnvCtx) (address denom : String)
    (s : EnvState)
    (hbb : s.cache.bankBalanceEvents.lookup
      (getDependentKey BankBalance.dependentKeyNamespace [address]) = none)
    (hct : s.cache.contracts.lookup address = none)
    (hbs : s.cache.bankStateEvents.lookup
      (getDependentKey BankStateEvent.dependentKeyNamespace [address, denom]) =
        none) :
    (∀ b : BankBalance,
      (ctx.db.bankBalances.filter fun b2 =>
          b2.address == address &&
            decide (b2.blockHeight ≤ ctx.block.height)).head? = some b →
      (Env.getBalance ctx address denom s).1 = b.balances.lookup denom ∧
        (Env.getBalance ctx address denom s).2.deps = s.deps ∧
        (Env.getBalance ctx address denom s).2.reads =
          s.reads ++ [ReadTag.bankBalanceFindOne]) ∧
    ((ctx.db.bankBalances.filter fun b2 =>
          b2.address == address &&
            decide (b2.blockHeight ≤ ctx.block.height)).head? = none →
      bankHistoryTracked ctx.db ctx.cfg address = false →
      (Env.getBalance ctx address denom s).1 = none ∧
        (Env.getBalance ctx address denom s).2.deps = s.deps ∧
        (Env.getBalance ctx address denom s).2.reads =
          s.reads ++ [ReadTag.bankBalanceFindOne, ReadTag.contractFindOne]) ∧
    ((ctx.db.bankBalances.filter fun b2 =>
          b2.address == address &&
            decide (b2.blockHeight ≤ ctx.block.height)).head? = none →
      bankHistoryTracked ctx.db ctx.cfg address = true →
      (Env.getBalance ctx address denom s).1 =
        (maxByHeight (fun e => e.blockHeight)
            (ctx.db.bankStateEvents.filter fun e =>
              e.address == address && e.denom == denom &&
                decide (e.blockHeight ≤ ctx.block.height))).map
          (fun e => e.balance) ∧
        (Env.getBalance ctx address denom s).2.deps =
          s.deps ++
            [DepKey.mk
              (getDependentKey BankStateEvent.dependentKeyNamespace
                [address, denom])
              false] ∧
        (Env.getBalance ctx address denom s).2.reads =
          s.reads ++
            [ReadTag.bankBalanceFindOne, ReadTag.contractFindOne,
              ReadTag.bankStateFindOne]) := by
  refine ⟨?_, ?_, ?_⟩
  · intro b hhead
    simp only [Env.getBalance, hbb, hhead]
    exact ⟨by trivial, by trivial, by trivial⟩
  · intro hhead htr
    rw [getBalance_none_eq ctx address denom s hbb hhead]
    have h :=
      (getBalanceHistory_fresh ctx address denom
          { s with
            reads := s.reads ++ [ReadTag.bankBalanceFindOne],
            cache :=
              { s.cache with
                bankBalanceEvents :=
                  (getDependentKey BankBalance.dependentKeyNamespace [address],
                      none) ::
                    s.cache.bankBalanceEvents } }
          (by exact hct) (by exact hbs)).1 htr
    exact ⟨h.1, h.2.1, h.2.2.trans (List.append_assoc _ _ _)⟩
  · intro hhead htr
    rw [getBalance_none_eq ctx address denom s hbb hhead]
    have h :=
      (getBalanceHistory_fresh ctx address denom
          { s with
            reads := s.reads ++ [ReadTag.bankBalanceFindOne],
            cache :=
              { s.cache with
                bankBalanceEvents :=
                  (getDependentKey BankBalance.dependentKeyNamespace [address],
                      none) ::
                    s.cache.bankBalanceEvents } }
          (by exact hct) (by exact hbs)).2 htr
    exact ⟨h.1, h.2.1, h.2.2.trans (List.append_assoc _ _ _)⟩

theorem finishGetMap_deps (keyPfx : String) (decodeKey : String → String)
    (events : List WasmStateEvent) (s : EnvState) :
    (Env.finishGetMap keyPfx decodeKey events s).2.deps = s.deps := by
  simp only [Env.finishGetMap]
  split <;> rfl

/-- The dependency recorder after getMap: the prefix dependent key is
appended unconditionally, before the fetch result is known. -/
theorem getMap_snd_deps (ctx : EnvCtx) (a keyPfx : String)
    (decodeKey : String → String) (s : EnvState) :
    (Env.getMap ctx a keyPfx decodeKey s).2.deps =
      s.deps ++
        [DepKey.mk
          (getDependentKey WasmStateEvent.dependentKeyNamespace [a, keyPfx])
          true] := by
  cases hl :
      s.cache.wasmEvents.lookup
        (getDependentKey WasmStateEvent.dependentKeyNamespace [a, keyPfx]) with
  | some entry => simp only [Env.getMap, hl, finishGetMap_deps]
  | none => simp only [Env.getMap, hl, finishGetMap_deps]

theorem foldl_mapEvent_deps (a : String) (evs : List WasmStateEvent)
    (st : EnvState) :
    (evs.foldl (Env.prefetchWriteMapEvent a) st).deps = st.deps := by
  induction evs generalizing st with
  | nil => rfl
  | cons e es ih =>
    rw [List.foldl_cons, ih]
    rfl

theorem prefetchWriteMapPfx_deps (a : String) (evs : List WasmStateEvent)
    (st : EnvState) (p : String) :
    (Env.prefetchWriteMapPfx a evs st p).deps = st.deps := by
  simp only [Env.prefetchWriteMapPfx]
  rw [foldl_mapEvent_deps]

theorem foldl_nonMap_deps (a : String) (evs : List WasmStateEvent)
    (ks : List String) (st : EnvState) :
    (ks.foldl (Env.prefetchWriteNonMap a evs) st).deps = st.deps := by
  induction ks generalizing st with
  | nil => rfl
  | cons k0 ks ih =>
    rw [List.foldl_cons, ih]
    rfl

theorem foldl_mapPfx_deps (a : String) (evs : List WasmStateEvent)
    (ps : List String) (st : EnvState) :
    (ps.foldl (Env.prefetchWriteMapPfx a evs) st).deps = st.deps := by
  induction ps generalizing st with
  | nil => rfl
  | cons p0 ps ih => rw [List.foldl_cons, ih, prefetchWriteMapPfx_deps]

/-- The dependency recorder after prefetch: every requested key is
appended up front (map prefixes with the prefix flag), before the single
batch query runs. -/
theorem prefetch_deps (ctx : EnvCtx) (a : String)
    (lks : List Env.PrefetchKey) (s : EnvState) :
    (Env.prefetch ctx a lks s).deps =
      s.deps ++
        lks.map fun pk =>
          DepKey.mk
            (getDependentKey WasmStateEvent.dependentKeyNamespace [a, pk.key])
            (strEndsWith pk.key ",") := by
  simp only [Env.prefetch]
  rw [foldl_mapPfx_deps, foldl_nonMap_deps]

/-- C4: getBalance prefers the BankBalance snapshot at or below the
target height and returns its per-denom balance when a snapshot row
exists; only when none exists does it fall back to BankStateEvent
history, and only when the address is a contract whose code id is in the
configured bank-history set — otherwise it returns absent without
querying BankStateEvent.  Stated with fresh memo entries and a nonempty
configured key set. -/
theorem getBalance_snapshot_then_history (ctx : EnvCtx)
    (address denom : String) (s : EnvState)
    (hbb : s.cache.bankBalanceEvents.lookup
      (getDependentKey BankBalance.dependentKeyNamespace [address]) = none)
    (hct : s.cache.contracts.lookup address = none)
    (hbs : s.cache.bankStateEvents.lookup
      (getDependentKey BankStateEvent.dependentKeyNamespace [address, denom]) =
        none)
    (hkeys : ctx.cfg.bankHistoryCodeIdsKeys ≠ []) :
    (bankHistoryTracked ctx.db ctx.cfg address = true ↔
      ∃ c, (ctx.db.contracts.find? fun c => c.address == address) = some c ∧
        c.codeId ∈
          findWasmCodeIdsByKeys ctx.cfg ctx.cfg.bankHistoryCodeIdsKeys) ∧
    (∀ b : BankBalance,
      (ctx.db.bankBalances.filter fun b2 =>
          b2.address == address &&
            decide (b2.blockHeight ≤ ctx.block.height)).head? = some b →
      (Env.getBalance ctx address denom s).1 = b.balances.lookup denom ∧
        (Env.getBalance ctx address denom s).2.reads =
          s.reads ++ [ReadTag.bankBalanceFindOne]) ∧
    ((ctx.db.bankBalances.filter fun b2 =>
          b2.address == address &&
            decide (b2.blockHeight ≤ ctx.block.height)).head? = none →
      bankHistoryTracked ctx.db ctx.cfg address = false →
      (Env.getBalance ctx address denom s).1 = none ∧
        (Env.getBalance ctx address denom s).2.reads =
          s.reads ++ [ReadTag.bankBalanceFindOne, ReadTag.contractFindOne]) ∧
    ((ctx.db.bankBalances.filter fun b2 =>
          b2.address == address &&
            decide (b2.blockHeight ≤ ctx.block.height)).head? = none →
      bankHistoryTracked ctx.db ctx.cfg address = true →
      (Env.getBalance ctx address denom s).1 =
        (maxByHeight (fun e => e.blockHeight)
            (ctx.db.bankStateEvents.filter fun e =>
              e.address == address && e.denom == denom &&
                decide (e.blockHeight ≤ ctx.block.height))).map
          (fun e => e.balance)) := by
  obtain ⟨hA, hB, hC⟩ := getBalance_fresh_spec ctx address denom s hbb hct hbs
  refine ⟨?_, ?_, ?_, ?_⟩
  · rw [bankHistoryTracked, contractTrackedBy]
    cases hf : ctx.db.contracts.find? fun c => c.address == address with
    | none => simp
    | some c =>
      have hke : ctx.cfg.bankHistoryCodeIdsKeys.isEmpty = false := by
        cases hkl : ctx.cfg.bankHistoryCodeIdsKeys with
        | nil => exact absurd hkl hkeys
        | cons x xs => rfl
      simp [hke, List.contains, List.elem_eq_mem]
  · intro b hhead
    exact ⟨(hA b hhead).1, (hA b hhead).2.2⟩
  · intro hhead htr
    exact ⟨(hB hhead htr).1, (hB hhead htr).2.2⟩
  · intro hhead htr
    exact (hC hhead htr).1

/-- Witness for C4: a BankBalance snapshot row exists, so its balance is
returned directly with a single snapshot read. -/
theorem getBalance_snapshot_then_history_witness :
    (Env.getBalance
        ⟨⟨[], [], [⟨"addr1", 10, [("ujuno", "7")]⟩], [], [], []⟩,
          ⟨[("bank", [3])], ["bank"]⟩, ⟨20, 20⟩⟩
        "addr1" "ujuno" EnvState.init).1 = some "7" := by
  have h :=
    ((getBalance_snapshot_then_history
          ⟨⟨[], [], [⟨"addr1", 10, [("ujuno", "7")]⟩], [], [], []⟩,
            ⟨[("bank", [3])], ["bank"]⟩, ⟨20, 20⟩⟩
          "addr1" "ujuno" EnvState.init (by decide) (by decide) (by decide)
          (by decide)).2.1
        ⟨"addr1", 10, [("ujuno", "7")]⟩ (by decide)).1
  exact h.trans (by decide)

/-- Counterexample to C3 as stated: with no BankBalance row and an
address that is not a tracked contract, getBalance attempts the snapshot
and contract fetches yet ends with an empty dependency list — the miss
produced no dependency at all. -/
theorem getBalance_miss_records_no_dependency :
    (Env.getBalance ⟨⟨[], [], [], [], [], []⟩, ⟨[], ["bank"]⟩, ⟨5, 5⟩⟩
        "juno1x" "ujuno" EnvState.init).2.deps = [] ∧
    (Env.getBalance ⟨⟨[], [], [], [], [], []⟩, ⟨[], ["bank"]⟩, ⟨5, 5⟩⟩
        "juno1x" "ujuno" EnvState.init).2.reads =
      [ReadTag.bankBalanceFindOne, ReadTag.contractFindOne] := by
  constructor
  · decide
  · decide

/-- C3 (amended): the wasm-state getters get, getMap and prefetch append
their dependent keys before the underlying fetch, unconditionally, so a
miss still records the dependency; getBalance however records no
dependent key for its BankBalance snapshot read, and appends its
BankStateEvent dependent key (before that fetch) only when the snapshot
is absent and the address is a tracked contract, so a full getBalance
miss records no dependency. -/
theorem dependency_recording (ctx : EnvCtx)
    (a k keyPfx address denom : String) (decodeKey : String → String)
    (lks : List Env.PrefetchKey) (s : EnvState)
    (hbb : s.cache.bankBalanceEvents.lookup
      (getDependentKey BankBalance.dependentKeyNamespace [address]) = none)
    (hct : s.cache.contracts.lookup address = none)
    (hbs : s.cache.bankStateEvents.lookup
      (getDependentKey BankStateEvent.dependentKeyNamespace [address, denom]) =
        none) :
    ((Env.get ctx a k s).2.deps =
      s.deps ++
        [DepKey.mk
          (getDependentKey WasmStateEvent.dependentKeyNamespace [a, k])
          false]) ∧
    ((Env.getMap ctx a keyPfx decodeKey s).2.deps =
      s.deps ++
        [DepKey.mk
          (getDependentKey WasmStateEvent.dependentKeyNamespace [a, keyPfx])
          true]) ∧
    ((Env.prefetch ctx a lks s).deps =
      s.deps ++
        lks.map fun pk =>
          DepKey.mk
            (getDependentKey WasmStateEvent.dependentKeyNamespace [a, pk.key])
            (strEndsWith pk.key ",")) ∧
    (∀ b : BankBalance,
      (ctx.db.bankBalances.filter fun b2 =>
          b2.address == address &&
            decide (b2.blockHeight ≤ ctx.block.height)).head? = some b →
      (Env.getBalance ctx address denom s).2.deps = s.deps) ∧
    ((ctx.db.bankBalances.filter fun b2 =>
          b2.address == address &&
            decide (b2.blockHeight ≤ ctx.block.height)).head? = none →
      bankHistoryTracked ctx.db ctx.cfg address = false →
      (Env.getBalance ctx address denom s).2.deps = s.deps) ∧
    ((ctx.db.bankBalances.filter fun b2 =>
          b2.address == address &&
            decide (b2.blockHeight ≤ ctx.block.height)).head? = none →
      bankHistoryTracked ctx.db ctx.cfg address = true →
      (Env.getBalance ctx address denom s).2.deps =
        s.deps ++
          [DepKey.mk
            (getDependentKey BankStateEvent.dependentKeyNamespace
              [address, denom])
            false]) := by
  obtain ⟨hA, hB, hC⟩ := getBalance_fresh_spec ctx address denom s hbb hct hbs
  refine
    ⟨get_snd_deps ctx a k s, getMap_snd_deps ctx a keyPfx decodeKey s,
      prefetch_deps ctx a lks s, ?_, ?_, ?_⟩
  · intro b hhead
    exact (hA b hhead).2.1
  · intro hhead htr
    exact (hB hhead htr).2.1
  · intro hhead htr
    exact (hC hhead htr).2.1

/-- Witness for C3 (amended): a tracked contract with no snapshot row
records exactly the BankStateEvent dependent key, and a plain get on an
empty database still records its dependent key. -/
theorem dependency_recording_witness :
    (Env.getBalance
        ⟨⟨[], [], [], [], [⟨"addr1", 3⟩], []⟩, ⟨[("bank", [3])], ["bank"]⟩,
          ⟨5, 5⟩⟩
        "addr1" "ujuno" EnvState.init).2.deps =
      [DepKey.mk
        (getDependentKey BankStateEvent.dependentKeyNamespace
          ["addr1", "ujuno"])
        false] := by
  have h :=
    (dependency_recording
        ⟨⟨[], [], [], [], [⟨"addr1", 3⟩], []⟩, ⟨[("bank", [3])], ["bank"]⟩,
          ⟨5, 5⟩⟩
        "a" "k" "p," "addr1" "ujuno" (fun t => t) [] EnvState.init (by decide)
        (by decide) (by decide)).2.2.2.2.2 (by decide) (by decide)
  exact h

theorem finishGet_hookCalls (ev : Option WasmStateEvent) (s : EnvState) :
    (Env.finishGet ev s).2.hookCalls =
      s.hookCalls ++ (ev.map fun e => FetchedRows.wasm [e]).toList := by
  cases ev with
  | none => simp [Env.finishGet]
  | some e =>
    simp only [Env.finishGet]
    split <;> simp

/-- The hook calls after get with an untried memo entry: exactly one
invocation with the fetched row on a positive read (tombstones
included), none on a miss. -/
theorem get_snd_hookCalls_fresh (ctx : EnvCtx) (a k : String) (s : EnvState)
    (hc : s.cache.wasmEvents.lookup
      (getDependentKey WasmStateEvent.dependentKeyNamespace [a, k]) = none) :
    (Env.get ctx a k s).2.hookCalls =
      s.hookCalls ++
        ((wasmFindLatest ctx.db.wasmEvents a k ctx.block.height).map fun e =>
            FetchedRows.wasm [e]).toList := by
  simp only [Env.get, hc]
  rw [finishGet_hookCalls]

/-- getTxEvents never invokes the onFetch hook, not even on a positive
read. -/
theorem getTxEvents_hookCalls (ctx : EnvCtx) (a : String)
    (w : WasmTxEvent → Bool) (s : EnvState) :
    (Env.getTxEvents ctx a w s).2.hookCalls = s.hookCalls := by
  simp only [Env.getTxEvents]
  split <;> rfl

theorem foldl_prefTransMapEvent_hookCalls (a : String)
    (ts : List WasmStateEventTransformation) (st : EnvState) :
    (ts.foldl (Env.prefetchTransformationsWriteMapEvent a) st).hookCalls =
      st.hookCalls := by
  induction ts generalizing st with
  | nil => rfl
  | cons t ts ih =>
    rw [List.foldl_cons, ih]
    rfl

theorem prefTransWriteMapPfx_hookCalls (a : String)
    (ts : List WasmStateEventTransformation) (st : EnvState) (p : String) :
    (Env.prefetchTransformationsWriteMapPfx a ts st p).hookCalls =
      st.hookCalls := by
  simp only [Env.prefetchTransformationsWriteMapPfx]
  rw [foldl_prefTransMapEvent_hookCalls]

theorem foldl_prefTransNonMap_hookCalls (a : String)
    (ts : List WasmStateEventTransformation) (ns : List String)
    (st : EnvState) :
    (ns.foldl (Env.prefetchTransformationsWriteNonMap a ts) st).hookCalls =
      st.hookCalls := by
  induction ns generalizing st with
  | nil => rfl
  | cons n ns ih =>
    rw [List.foldl_cons, ih]
    rfl

theorem foldl_prefTransMapPfx_hookCalls (a : String)
    (ts : List WasmStateEventTransformation) (ps : List String)
    (st : EnvState) :
    (ps.foldl (Env.prefetchTransformationsWriteMapPfx a ts) st).hookCalls =
      st.hookCalls := by
  induction ps generalizing st with
  | nil => rfl
  | cons p ps ih =>
    rw [List.foldl_cons, ih, prefTransWriteMapPfx_hookCalls]

/-- prefetchTransformations invokes the onFetch hook exactly once, with
an empty list rather than the fetched rows. -/
theorem prefetchTransformations_hookCalls (ctx : EnvCtx) (a : String)
    (lns : List Env.PrefetchName) (s : EnvState) :
    (Env.prefetchTransformations ctx a lns s).hookCalls =
      s.hookCalls ++ [FetchedRows.transformations []] := by
  simp only [Env.prefetchTransformations]
  rw [foldl_prefTransMapPfx_hookCalls, foldl_prefTransNonMap_hookCalls]

/-- Counterexample to C5 as stated: a positive getTxEvents read (one tx
event found and returned) invokes the onFetch hook zero times. -/
theorem getTxEvents_positive_read_skips_hook :
    ((Env.getTxEvents
        ⟨⟨[], [⟨"a", 10, 10, "d"⟩], [], [], [], []⟩, ⟨[], []⟩, ⟨20, 20⟩⟩
        "a" (fun _ => true) EnvState.init).1).isSome = true ∧
    (Env.getTxEvents
        ⟨⟨[], [⟨"a", 10, 10, "d"⟩], [], [], [], []⟩, ⟨[], []⟩, ⟨20, 20⟩⟩
        "a" (fun _ => true) EnvState.init).2.hookCalls = [] := by
  constructor
  · decide
  · decide

/-- C5 (amended): onFetch is invoked with the fetched rows on every
positive get read (tombstones included), but getTxEvents never invokes
it and prefetchTransformations invokes it with an empty list; and the
value a getter returns does not depend on the hook call history, only
on the memo and database. -/
theorem onFetch_invocation (ctx : EnvCtx) (a k : String)
    (w : WasmTxEvent → Bool) (lns : List Env.PrefetchName) (s t : EnvState)
    (hc : s.cache.wasmEvents.lookup
      (getDependentKey WasmStateEvent.dependentKeyNamespace [a, k]) = none) :
    ((Env.get ctx a k s).2.hookCalls =
      s.hookCalls ++
        ((wasmFindLatest ctx.db.wasmEvents a k ctx.block.height).map fun e =>
            FetchedRows.wasm [e]).toList) ∧
    ((Env.getTxEvents ctx a w s).2.hookCalls = s.hookCalls) ∧
    ((Env.prefetchTransformations ctx a lns s).hookCalls =
      s.hookCalls ++ [FetchedRows.transformations []]) ∧
    (s.cache = t.cache → (Env.get ctx a k s).1 = (Env.get ctx a k t).1) ∧
    (s.cache = t.cache →
      (Env.getTxEvents ctx a w s).1 = (Env.getTxEvents ctx a w t).1) := by
  refine
    ⟨get_snd_hookCalls_fresh ctx a k s hc, getTxEvents_hookCalls ctx a w s,
      prefetchTransformations_hookCalls ctx a lns s, ?_, ?_⟩
  · intro hst
    rw [get_fst_eq, get_fst_eq, hst]
  · intro hst
    simp only [Env.getTxEvents]
    split <;> rfl

/-- Witness for C5 (amended): a positive get invokes the hook with the
fetched row while an equal-cache state yields the same value. -/
theorem onFetch_invocation_witness :
    (Env.get ⟨⟨[⟨"a", "k", 10, 10, some "1", false⟩], [], [], [], [], []⟩,
        ⟨[], []⟩, ⟨20, 20⟩⟩
      "a" "k" EnvState.init).2.hookCalls =
      [FetchedRows.wasm [⟨"a", "k", 10, 10, some "1", false⟩]] := by
  have h :=
    (onFetch_invocation
        ⟨⟨[⟨"a", "k", 10, 10, some "1", false⟩], [], [], [], [], []⟩,
          ⟨[], []⟩, ⟨20, 20⟩⟩
        "a" "k" (fun _ => true) [] EnvState.init EnvState.init (by decide)).1
  exact h.trans (by decide)

/-! ### The compute endpoint -/

theorem isRangeCoveredBeforeEnd_iff_chain
    (cs : List Computer.StoredComputation) :
    Computer.isRangeCoveredBeforeEnd cs = true ↔
      List.Chain'
        (fun c1 c2 => c1.latestBlockHeightValid = c2.blockHeight - 1) cs := by
  induction cs with
  | nil => simp [Computer.isRangeCoveredBeforeEnd]
  | cons a l ih =>
    cases l with
    | nil => simp [Computer.isRangeCoveredBeforeEnd]
    | cons b r =>
      rw [List.chain'_cons, ← ih]
      simp [Computer.isRangeCoveredBeforeEnd]

/-- C2: a stored chain (most recent computation at or below the start,
then all stored computations inside the range ascending) is treated as
continuous exactly when every consecutive pair links the validity bound
of the earlier to the block just before the later; when continuous, the
endpoint calls updateValidityUpToBlockHeight at the end height on the
last piece, and on failure invokes computeRange from the last piece
block through the end block, dropping the first recomputed result as a
duplicate before persisting. -/
theorem range_reuse_protocol (table : List Computer.StoredComputation)
    (b0 b1 : Block) (oracle : Computer.RangeOracle)
    (fullRange : Option (List Computer.ComputationOutput))
    (start : Computer.StoredComputation)
    (ms : List Computer.ComputationOutput)
    (hstart : Computer.findExistingStart table b0.height = some start)
    (hcov :
      Computer.isRangeCoveredBeforeEnd
        (start :: Computer.findExistingRest table b0.height b1.height) = true)
    (hupd : oracle.updateLast = false)
    (hmiss : oracle.missing = some ms)
    (hupd2 : oracle.updateMergedLast = true) :
    (∀ cs : List Computer.StoredComputation,
      Computer.isRangeCoveredBeforeEnd cs = true ↔
        List.Chain'
          (fun c1 c2 => c1.latestBlockHeightValid = c2.blockHeight - 1) cs) ∧
    Computer.rangeBranch table b0 b1 none none oracle fullRange =
      (200,
        [Computer.Effect.queryStoredStart, Computer.Effect.queryStoredRest,
          Computer.Effect.callUpdateValidity
            ((Computer.findExistingRest table b0.height b1.height).getLastD
                start).blockHeight
            b1.height,
          Computer.Effect.callComputeRange
            ((Computer.findExistingRest table b0.height b1.height).getLastD
                start).block
            b1,
          Computer.Effect.persist (ms.drop 1).length,
          Computer.Effect.callUpdateValidity
            ((Computer.findExistingRest table b0.height b1.height ++
                  Computer.createFromComputationOutputs (ms.drop 1)).getLastD
                start).blockHeight
            b1.height]) := by
  refine ⟨isRangeCoveredBeforeEnd_iff_chain, ?_⟩
  simp only [Computer.rangeBranch, hstart, hcov, hupd, hmiss, hupd2,
    Computer.createFromComputationOutputs, List.length_map]
  rfl

/-- Witness for C2: a concrete continuous chain whose last piece fails
to extend, recomputed from its block with the duplicate first result
dropped. -/
theorem range_reuse_protocol_witness :
    Computer.rangeBranch
        [⟨8, 8, 14, some "1"⟩, ⟨15, 15, 20, some "2"⟩] ⟨10, 10⟩ ⟨30, 30⟩
        none none ⟨false, true, some [⟨15, 15, 20, some "2"⟩, ⟨21, 21, 30, some "3"⟩]⟩
        none =
      (200,
        [Computer.Effect.queryStoredStart, Computer.Effect.queryStoredRest,
          Computer.Effect.callUpdateValidity 15 30,
          Computer.Effect.callComputeRange ⟨15, 15⟩ ⟨30, 30⟩,
          Computer.Effect.persist 1,
          Computer.Effect.callUpdateValidity 21 30]) := by
  exact
    (range_reuse_protocol
        [⟨8, 8, 14, some "1"⟩, ⟨15, 15, 20, some "2"⟩] ⟨10, 10⟩ ⟨30, 30⟩
        ⟨false, true, some [⟨15, 15, 20, some "2"⟩, ⟨21, 21, 30, some "3"⟩]⟩
        none ⟨8, 8, 14, some "1"⟩ [⟨15, 15, 20, some "2"⟩, ⟨21, 21, 30, some "3"⟩]
        (by decide) (by decide) rfl rfl rfl).2.trans
      (by decide)

/-- C6: a request whose formula is dynamic and that supplies a blocks
or times range is rejected with a 400 user error before any evaluation,
with no effects performed: no compute or computeRange call and no
Computation persisted. -/
theorem dynamic_range_rejected (req : Computer.Request)
    (q : Computer.ValidatedQuery) (latestBlock : Block)
    (blockForTime : Int → Option Block) (firstBlock : Option Block)
    (table : List Computer.StoredComputation) (oracle : Computer.RangeOracle)
    (fullRange : Option (List Computer.ComputationOutput))
    (single : Option (Option Json))
    (hval : Computer.validate req = .ok q)
    (hb : (q.blocks.isSome || q.times.isSome) = true) :
    Computer.computer req true true none latestBlock blockForTime firstBlock
        table oracle fullRange single = (400, []) := by
  simp only [Computer.computer, hval, hb]
  rfl

/-- Witness for C6: a valid blocks range with a dynamic formula is
rejected with no effects. -/
theorem dynamic_range_rejected_witness :
    Computer.computer
        ⟨none, some (some (⟨10, 10⟩, ⟨20, 20⟩)), none, none, none, none⟩ true
        true none ⟨100, 100⟩ (fun _ => none) none [] ⟨false, false, none⟩ none
        none =
      (400, []) := by
  exact
    dynamic_range_rejected
      ⟨none, some (some (⟨10, 10⟩, ⟨20, 20⟩)), none, none, none, none⟩
      ⟨none, some (⟨10, 10⟩, ⟨20, 20⟩), none, none, none, none⟩ ⟨100, 100⟩
      (fun _ => none) none [] ⟨false, false, none⟩ none none rfl (by decide)

/-- C9: whenever a range request carries a block step or a time step,
the endpoint consults no stored computations and performs exactly one
computeRange call over the whole (end-capped) range: stated both for a
blocks range with a step, and for a times range with a time step whose
start and end resolve to blocks. -/
theorem step_skips_stored_reuse (req : Computer.Request)
    (q : Computer.ValidatedQuery) (b0 b1 : Block) (t0 : Int)
    (te : Option Int) (s0 e0 : Block) (latestBlock : Block)
    (blockForTime : Int → Option Block) (firstBlock : Option Block)
    (table : List Computer.StoredComputation) (oracle : Computer.RangeOracle)
    (fullRange : Option (List Computer.ComputationOutput))
    (single : Option (Option Json))
    (hval : Computer.validate req = .ok q) :
    (q.blocks = some (b0, b1) → q.times = none →
      q.blockStep.isSome = true ∨ q.timeStep.isSome = true →
      (Computer.computer req true false none latestBlock blockForTime
            firstBlock table oracle fullRange single).2 =
        [Computer.Effect.callComputeRange b0
          (if b1.height > latestBlock.height then latestBlock else b1)]) ∧
    (q.times = some (t0, te) → q.timeStep.isSome = true →
      (match blockForTime t0 with
        | some b => some b
        | none => firstBlock) = some s0 →
      (match te with
        | some t1 => blockForTime t1
        | none => some latestBlock) = some e0 →
      (Computer.computer req true false none latestBlock blockForTime
            firstBlock table oracle fullRange single).2 =
        [Computer.Effect.callComputeRange s0
          (if e0.height > latestBlock.height then latestBlock else e0)]) := by
  constructor
  · intro hblocks htimes hstep
    have hcond : (q.blockStep.isNone && q.timeStep.isNone) = false := by
      rcases hstep with h | h
      · cases hbs : q.blockStep with
        | none => rw [hbs] at h; simp at h
        | some n => simp [hbs]
      · cases hts : q.timeStep with
        | none => rw [hts] at h; simp at h
        | some n => simp [hts]
    simp only [Computer.computer, hval, htimes, hblocks, Computer.rangeBranch,
      hcond, Computer.fullCompute]
    cases fullRange <;> rfl
  · intro htimes hstep hs he
    have hcond : (q.blockStep.isNone && q.timeStep.isNone) = false := by
      cases hts : q.timeStep with
      | none => rw [hts] at hstep; simp at hstep
      | some n => simp [hts]
    simp only [Computer.computer, hval, htimes, hs, he, Computer.rangeBranch,
      hcond, Computer.fullCompute]
    cases fullRange <;> rfl

/-- Witness for C9: a times range with time step 5 resolves to blocks
and recomputes via computeRange with no stored-computation lookup, even
with a stored continuous chain present. -/
theorem step_skips_stored_reuse_witness :
    (Computer.computer
          ⟨none, none, none, none, some (some (100, some 200)),
            some (some 5)⟩
          true false none ⟨100, 1000⟩
          (fun t => if t == 100 then some ⟨10, 100⟩
            else if t == 200 then some ⟨20, 200⟩ else none)
          none [⟨8, 8, 14, some "1"⟩, ⟨15, 15, 25, some "2"⟩]
          ⟨true, true, none⟩ (some []) none).2 =
      [Computer.Effect.callComputeRange ⟨10, 100⟩ ⟨20, 200⟩] := by
  have h :=
    (step_skips_stored_reuse
        ⟨none, none, none, none, some (some (100, some 200)), some (some 5)⟩
        ⟨none, none, none, none, some (100, some 200), some 5⟩ ⟨0, 0⟩ ⟨0, 0⟩
        100 (some 200) ⟨10, 100⟩ ⟨20, 200⟩ ⟨100, 1000⟩
        (fun t => if t == 100 then some ⟨10, 100⟩
          else if t == 200 then some ⟨20, 200⟩ else none)
        none [⟨8, 8, 14, some "1"⟩, ⟨15, 15, 25, some "2"⟩] ⟨true, true, none⟩
        (some []) none rfl).2 (by decide) (by decide) rfl rfl
  exact h.trans (by decide)

theorem validateBlockParam_cases (x : Option (Option Block)) :
    Computer.validateBlockParam x = .error 400 ∨
      ∃ b, Computer.validateBlockParam x = .ok b := by
  cases x with
  | none => exact Or.inr ⟨none, rfl⟩
  | some o =>
    cases o with
    | none => exact Or.inl rfl
    | some b => exact Or.inr ⟨some b, rfl⟩

theorem validateBlocksParam_cases (x : Option (Option (Block × Block)))
    (y : Option (Option Int)) :
    Computer.validateBlocksParam x y = .error 400 ∨
      ∃ p, Computer.validateBlocksParam x y = .ok p := by
  cases x with
  | none => exact Or.inr ⟨(none, none), rfl⟩
  | some o =>
    cases o with
    | none => exact Or.inl rfl
    | some p =>
      obtain ⟨b0, b1⟩ := p
      by_cases hc :
          (decide (b0.height ≥ b1.height) ||
              decide (b0.timeUnixMs ≥ b1.timeUnixMs)) = true
      · left
        simp only [Computer.validateBlocksParam]
        rw [if_pos hc]
      · cases y with
        | none =>
          right
          refine ⟨(some (b0, b1), none), ?_⟩
          simp only [Computer.validateBlocksParam]
          rw [if_neg hc]
        | some o2 =>
          cases o2 with
          | none =>
            left
            simp only [Computer.validateBlocksParam]
            rw [if_neg hc]
          | some n =>
            by_cases hn : n < 1
            · left
              simp only [Computer.validateBlocksParam]
              rw [if_neg hc]
              show
                (if n < 1 then
                    (.error 400 :
                      Except Nat (Option (Block × Block) × Option Int))
                  else .ok (some (b0, b1), some n)) =
                  .error 400
              rw [if_pos hn]
            · right
              refine ⟨(some (b0, b1), some n), ?_⟩
              simp only [Computer.validateBlocksParam]
              rw [if_neg hc]
              show
                (if n < 1 then
                    (.error 400 :
                      Except Nat (Option (Block × Block) × Option Int))
                  else .ok (some (b0, b1), some n)) =
                  .ok (some (b0, b1), some n)
              rw [if_neg hn]

theorem validateTimeParam_cases (x : Option (Option Int)) :
    Computer.validateTimeParam x = .error 400 ∨
      ∃ t, Computer.validateTimeParam x = .ok t := by
  cases x with
  | none => exact Or.inr ⟨none, rfl⟩
  | some o =>
    cases o with
    | none => exact Or.inl rfl
    | some t =>
      simp only [Computer.validateTimeParam]
      split
      · exact Or.inl rfl
      · exact Or.inr ⟨_, rfl⟩

/-- A blocks range whose start is not strictly before its end (in
height or time) makes validation fail with 400. -/
theorem validate_error_of_bad_blocks (req : Computer.Request) (b0 b1 : Block)
    (hq : req.blocksQ = some (some (b0, b1)))
    (hcond : b0.height ≥ b1.height ∨ b0.timeUnixMs ≥ b1.timeUnixMs) :
    Computer.validate req = .error 400 := by
  have hc :
      (decide (b0.height ≥ b1.height) ||
          decide (b0.timeUnixMs ≥ b1.timeUnixMs)) = true := by
    rcases hcond with h | h <;> simp [h]
  have hbp :
      Computer.validateBlocksParam req.blocksQ req.blockStepQ = .error 400 := by
    rw [hq]
    simp only [Computer.validateBlocksParam]
    rw [if_pos hc]
  rcases validateBlockParam_cases req.blockQ with h1 | ⟨b, h1⟩ <;>
    simp [Computer.validate, h1, hbp]

/-- A supplied block step that is unparseable or not positive makes
validation of a blocks range request fail with 400. -/
theorem validate_error_of_bad_blockStep (req : Computer.Request)
    (b0 b1 : Block) (hq : req.blocksQ = some (some (b0, b1)))
    (hstep :
      req.blockStepQ = some none ∨
        ∃ n, req.blockStepQ = some (some n) ∧ n < 1) :
    Computer.validate req = .error 400 := by
  by_cases hc :
      (decide (b0.height ≥ b1.height) ||
          decide (b0.timeUnixMs ≥ b1.timeUnixMs)) = true
  · exact
      validate_error_of_bad_blocks req b0 b1 hq
        (by
          rcases Bool.or_eq_true _ _ |>.mp hc with h | h <;>
            [exact Or.inl (by simpa using h);
              exact Or.inr (by simpa using h)])
  · have hbp :
        Computer.validateBlocksParam req.blocksQ req.blockStepQ =
          .error 400 := by
      rw [hq]
      simp only [Computer.validateBlocksParam]
      rw [if_neg (by simpa using hc)]
      rcases hstep with h | ⟨n, h, hn⟩
      · rw [h]
      · rw [h]
        simp only
        rw [if_pos hn]
    rcases validateBlockParam_cases req.blockQ with h1 | ⟨b, h1⟩ <;>
      simp [Computer.validate, h1, hbp]

/-- A times range whose supplied end is not strictly after its start
makes validation fail with 400. -/
theorem validate_error_of_bad_times (req : Computer.Request) (t0 t1 : Int)
    (hq : req.timesQ = some (some (t0, some t1))) (hcond : t0 ≥ t1) :
    Computer.validate req = .error 400 := by
  have htp :
      Computer.validateTimesParam req.timesQ req.timeStepQ = .error 400 := by
    rw [hq]
    simp only [Computer.validateTimesParam]
    rw [if_pos (by simp [hcond])]
  rcases validateBlockParam_cases req.blockQ with h1 | ⟨b, h1⟩
  · simp [Computer.validate, h1]
  rcases validateBlocksParam_cases req.blocksQ req.blockStepQ with
    h2 | ⟨⟨blocks, bstep⟩, h2⟩
  · simp [Computer.validate, h1, h2]
  rcases validateTimeParam_cases req.timeQ with h3 | ⟨t, h3⟩ <;>
    simp [Computer.validate, h1, h2, h3, htp]

/-- A supplied time step that is unparseable or not positive makes
validation of a times range request fail with 400. -/
theorem validate_error_of_bad_timeStep (req : Computer.Request)
    (t0 : Int) (te : Option Int) (hq : req.timesQ = some (some (t0, te)))
    (hstep :
      req.timeStepQ = some none ∨
        ∃ n, req.timeStepQ = some (some n) ∧ n < 1) :
    Computer.validate req = .error 400 := by
  have htp :
      Computer.validateTimesParam req.timesQ req.timeStepQ = .error 400 := by
    rw [hq]
    simp only [Computer.validateTimesParam]
    by_cases hc :
        ((te.map fun t1 => decide (t0 ≥ t1)).getD false) = true
    · rw [if_pos hc]
    · rw [if_neg hc]
      rcases hstep with h | ⟨n, h, hn⟩
      · rw [h]
      · rw [h]
        simp only
        rw [if_pos hn]
  rcases validateBlockParam_cases req.blockQ with h1 | ⟨b, h1⟩
  · simp [Computer.validate, h1]
  rcases validateBlocksParam_cases req.blocksQ req.blockStepQ with
    h2 | ⟨⟨blocks, bstep⟩, h2⟩
  · simp [Computer.validate, h1, h2]
  rcases validateTimeParam_cases req.timeQ with h3 | ⟨t, h3⟩ <;>
    simp [Computer.validate, h1, h2, h3, htp]

/-- C7: a blocks range whose start is not strictly before its end, a
times range whose start is not strictly before its supplied end, or a
block or time step that is not a positive integer is rejected with a
400 user error before any formula evaluation or persistence: the
endpoint produces no effects at all. -/
theorem bad_range_rejected_before_evaluation (req : Computer.Request)
    (b0 b1 : Block) (t0 : Int) (te : Option Int) (t1 : Int)
    (fk fd : Bool) (acs : Option Nat) (latestBlock : Block)
    (blockForTime : Int → Option Block) (firstBlock : Option Block)
    (table : List Computer.StoredComputation) (oracle : Computer.RangeOracle)
    (fullRange : Option (List Computer.ComputationOutput))
    (single : Option (Option Json)) :
    (req.blocksQ = some (some (b0, b1)) →
      b0.height ≥ b1.height ∨ b0.timeUnixMs ≥ b1.timeUnixMs →
      Computer.computer req fk fd acs latestBlock blockForTime firstBlock
          table oracle fullRange single = (400, [])) ∧
    (req.blocksQ = some (some (b0, b1)) →
      (req.blockStepQ = some none ∨
        ∃ n, req.blockStepQ = some (some n) ∧ n < 1) →
      Computer.computer req fk fd acs latestBlock blockForTime firstBlock
          table oracle fullRange single = (400, [])) ∧
    (req.timesQ = some (some (t0, some t1)) → t0 ≥ t1 →
      Computer.computer req fk fd acs latestBlock blockForTime firstBlock
          table oracle fullRange single = (400, [])) ∧
    (req.timesQ = some (some (t0, te)) →
      (req.timeStepQ = some none ∨
        ∃ n, req.timeStepQ = some (some n) ∧ n < 1) →
      Computer.computer req fk fd acs latestBlock blockForTime firstBlock
          table oracle fullRange single = (400, [])) := by
  refine ⟨?_, ?_, ?_, ?_⟩
  · intro hq hcond
    rw [Computer.computer, validate_error_of_bad_blocks req b0 b1 hq hcond]
  · intro hq hstep
    rw [Computer.computer, validate_error_of_bad_blockStep req b0 b1 hq hstep]
  · intro hq hcond
    rw [Computer.computer, validate_error_of_bad_times req t0 t1 hq hcond]
  · intro hq hstep
    rw [Computer.computer, validate_error_of_bad_timeStep req t0 te hq hstep]

/-- Witness for C7: a blocks range with start height equal to end
height is rejected with 400 and no effects. -/
theorem bad_range_rejected_before_evaluation_witness :
    Computer.computer
        ⟨none, some (some (⟨10, 10⟩, ⟨10, 20⟩)), none, none, none, none⟩ true
        false none ⟨100, 100⟩ (fun _ => none) none [] ⟨false, false, none⟩
        none none =
      (400, []) := by
  exact
    (bad_range_rejected_before_evaluation
          ⟨none, some (some (⟨10, 10⟩, ⟨10, 20⟩)), none, none, none, none⟩
          ⟨10, 10⟩ ⟨10, 20⟩ 0 none 0 true false none ⟨100, 100⟩
          (fun _ => none) none [] ⟨false, false, none⟩ none none).1 rfl
      (Or.inl (by decide))

end Argus
